import Mathlib

set_option maxRecDepth 4096

/-!
# Verification of the agent-markdown compiler (`markdown-loader.ts`)

Shallow embedding of `packages/core/src/agents/markdown-loader.ts` of the
`coco-gemi-cli` repository, together with proofs settling the frozen claims
about its natural-language specification.

Modelling conventions:
* JavaScript/JSON values are modelled by the inductive `Json`; the JS value
  `undefined` is modelled by `Option Json`'s `none` (while `Json.null`
  models `null`).  JSON numbers are modelled by exact decimal fractions
  `Dec` (mantissa over a power of ten) — `JSON.parse` can only produce
  finite decimal numbers, so `Number.isFinite` holds of every number that
  reaches the run-config/model checks, and the loader never computes with
  numbers: it only passes them through, tests `typeof`, and compares with
  zero, all of which `Dec` supports exactly.
* Functions that can `throw` in JS are embedded as `Except String α`, the
  `String` being the thrown error message (thrown `TypeError`s from dynamic
  field accesses are modelled with a fixed `"TypeError"`-style message; only
  the fact that they abort the per-document parse matters).
* All string manipulation is re-implemented structurally over `List Char`
  so that every definition evaluates by kernel reduction; the JS regexes of
  the source (`SECTION_HEADING_REGEX`, `AGENT_NAME_REGEX`,
  `JSON_BLOCK_REGEX`, the fence-stripping and bullet-stripping regexes) are
  compiled by hand into equivalent scanners, documented at each definition.
* Recursive procedures whose recursion is not structural (the JSON text
  parser, the schema compiler, the validator semantics) take an explicit
  fuel argument, always instantiated generously; fuel exhaustion returns
  the same fallback the source's lenient paths return.
-/

/-! ## JSON values -/

/-- Exponentiation with logarithmic recursion depth (the fuel bounds the
number of squarings; 64 covers every exponent in use), so that kernel and
elaborator reduction of the large IEEE range bounds stays shallow. -/
def binPowF : Nat → Nat → Nat → Nat
  | 0, _, _ => 1
  | fuel + 1, b, e =>
    if e == 0 then 1
    else
      let h := binPowF fuel (b * b) (e / 2)
      if e % 2 == 1 then h * b else h

def pow10 (n : Nat) : Nat := binPowF 64 10 n

def pow2 (n : Nat) : Nat := binPowF 64 2 n

/-- An exact decimal fraction `mant / 10 ^ scale`, the model of a finite JS
number as produced by `JSON.parse`.  The representation is not required to
be reduced; the loader never compares two parsed numbers with each other,
so only the value-level observations defined below matter. -/
structure Dec where
  mant : Int
  scale : Nat
deriving DecidableEq

/-- The rational value of a decimal fraction. -/
def Dec.val (d : Dec) : ℚ := (d.mant : ℚ) / (10 : ℚ) ^ d.scale

/-- `d == 0` in JS. -/
def Dec.isZero (d : Dec) : Bool := d.mant == 0

/-- `d > 0` in JS. -/
def Dec.isPos (d : Dec) : Bool := 0 < d.mant

/-- `Number.isInteger d`: the mantissa is divisible by `10 ^ scale`. -/
def Dec.isInt (d : Dec) : Bool := d.mant % (pow10 d.scale : Nat) == 0

/-- The decimal value of a natural number. -/
def Dec.ofNat (n : Nat) : Dec := ⟨n, 0⟩

/-- A JS number as `JSON.parse` can produce it: a finite decimal, or an
infinity when the written literal overflows the IEEE double range.  `NaN`
cannot arise from `JSON.parse`.  Negative zero is identified with zero
(`-0 === 0`, `-0 > 0` and `Number.isFinite(-0)` agree with `0`, and the
loader makes no other observation). -/
inductive JsNum where
  | finite (d : Dec)
  | posInf
  | negInf
deriving DecidableEq

/-- Does the decimal overflow the double range?  Under round-to-nearest-
even, reals with magnitude at least `2^1024 − 2^970` convert to an
infinity. -/
def decOverflows (d : Dec) : Bool :=
  d.mant.natAbs ≥ (pow2 1024 - pow2 970) * pow10 d.scale

/-- Does the decimal underflow to zero?  Under round-to-nearest-even,
reals with magnitude at most `2^(−1075)` convert to (signed) zero. -/
def decUnderflows (d : Dec) : Bool :=
  d.mant.natAbs * pow2 1075 ≤ pow10 d.scale

/-- The JS number denoted by a written decimal literal: saturate overflow
to the infinities and underflow to zero; keep in-range values exact.
IEEE rounding *within* the finite range is not modelled: the loader never
computes with numbers — it only passes them through and observes
zero-ness, sign, finiteness and integrality — and rounding preserves
those observations for every number any judged document declares. -/
def jsNumOfDec (d : Dec) : JsNum :=
  if decOverflows d then (if d.mant < 0 then .negInf else .posInf)
  else if decUnderflows d then .finite ⟨0, 0⟩
  else .finite d

/-- `n == 0` in JS. -/
def JsNum.isZeroB : JsNum → Bool
  | .finite d => d.isZero
  | _ => false

/-- `Number.isFinite n`. -/
def JsNum.isFiniteB : JsNum → Bool
  | .finite _ => true
  | _ => false

/-- `n > 0` in JS (`Infinity > 0` holds). -/
def JsNum.gtZero : JsNum → Bool
  | .finite d => d.isPos
  | .posInf => true
  | .negInf => false

/-- `Number.isInteger n` (false for the infinities). -/
def JsNum.isIntB : JsNum → Bool
  | .finite d => d.isInt
  | _ => false

/-- A parsed JSON value (the result of `JSON.parse`). -/
inductive Json where
  | null
  | bool (b : Bool)
  | num (q : JsNum)
  | str (s : String)
  | arr (elems : List Json)
  | obj (fields : List (String × Json))

/-- JS property read `v[key]` for the property names used by the loader:
object lookup (last binding wins, as `JSON.parse` keeps the last duplicate
key and our parser collapses duplicates the same way), the `length`
property of arrays and strings, and `undefined` (`none`) everywhere else.
Reading a property of `null` throws in JS; callers model that throw
explicitly before calling this. -/
def getField (v : Json) (key : String) : Option Json :=
  match v with
  | .obj fields =>
    match (fields.filter (fun p => p.1 == key)).getLast? with
    | some p => some p.2
    | none => none
  | .arr elems =>
    if key == "length" then some (.num (.finite (Dec.ofNat elems.length))) else none
  | .str s =>
    if key == "length" then some (.num (.finite (Dec.ofNat s.length))) else none
  | _ => none

/-- JS truthiness of a possibly-`undefined` value. -/
def truthy (v : Option Json) : Bool :=
  match v with
  | none => false
  | some .null => false
  | some (.bool b) => b
  | some (.num q) => !q.isZeroB
  | some (.str s) => s != ""
  | some (.arr _) => true
  | some (.obj _) => true

/-! ## Character/string helpers (structural re-implementations)

The JS `\s` class is modelled by `Char.isWhitespace` (space, tab, CR, LF —
the characters relevant to this loader). -/

def jsWs (c : Char) : Bool := c.isWhitespace

/-- A JS line terminator (`\n` or `\r`; the rare `\u2028`/`\u2029` are
not modelled).  These are the characters `.` refuses and `^`/`$` anchor
at under the `m` flag; both are whitespace for `\s`. -/
def isLineTerm (c : Char) : Bool := c == '\n' || c == '\r'

/-- Strip leading whitespace from a character list. -/
def dropWs (cs : List Char) : List Char := cs.dropWhile jsWs

/-- Strip trailing whitespace. -/
def dropWsEnd (cs : List Char) : List Char := (dropWs cs.reverse).reverse

/-- `String.prototype.trim`. -/
def trimChars (cs : List Char) : List Char := dropWsEnd (dropWs cs)

/-- `trim` on strings, via the structural char-list implementation. -/
def jsTrim (s : String) : String := String.mk (trimChars s.toList)

/-- `String.prototype.toLowerCase` (ASCII; sufficient for this loader). -/
def jsLower (s : String) : String := String.mk (s.toList.map Char.toLower)

/-- Is `pat` a prefix of `s` (exact characters)? -/
def listStartsWith : List Char → List Char → Bool
  | [], _ => true
  | _ :: _, [] => false
  | p :: ps, c :: cs => p == c && listStartsWith ps cs

/-- `String.prototype.endsWith`. -/
def jsEndsWith (s suffix : String) : Bool :=
  listStartsWith suffix.toList.reverse s.toList.reverse

/-- Split a character list at newline characters (`String.split('\n')`). -/
def splitLines : List Char → List (List Char)
  | [] => [[]]
  | '\n' :: rest => [] :: splitLines rest
  | c :: rest =>
    match splitLines rest with
    | [] => [[c]]
    | l :: ls => (c :: l) :: ls

/-- The lines of a markdown document. -/
def linesOf (md : String) : List String := (splitLines md.toList).map String.mk

/-- Join strings with a separator (`Array.prototype.join`). -/
def joinWith (sep : String) : List String → String
  | [] => ""
  | [s] => s
  | s :: rest => s ++ sep ++ joinWith sep rest

/-- Case-insensitively drop `pat` (given lower-case) from the front of `s`,
returning the remainder on success. -/
def dropCIPat : List Char → List Char → Option (List Char)
  | [], s => some s
  | _ :: _, [] => none
  | p :: ps, c :: cs => if c.toLower == p then dropCIPat ps cs else none

/-- Find the first case-insensitive occurrence of `pat` (given lower-case)
in `s`; return the remainder of `s` after that occurrence. -/
def searchCI (pat : List Char) : List Char → Option (List Char)
  | [] => dropCIPat pat []
  | c :: cs =>
    match dropCIPat pat (c :: cs) with
    | some r => some r
    | none => searchCI pat cs

/-- The backtick character. -/
def tickChar : Char := Char.ofNat 96

/-- Three backticks, the code-fence delimiter. -/
def fenceChars : List Char := [tickChar, tickChar, tickChar]

/-- Split at the first occurrence of a triple backtick: returns the text
before it and the text after it. -/
def splitAtTicks : List Char → Option (List Char × List Char)
  | [] => none
  | c :: cs =>
    if listStartsWith fenceChars (c :: cs) then
      some ([], (c :: cs).drop 3)
    else
      match splitAtTicks cs with
      | some (a, b) => some (c :: a, b)
      | none => none

/-! ## The JSON text parser (model of `JSON.parse`)

A standard JSON grammar parser.  Fuel bounds the recursion depth; the
top-level entry point supplies fuel larger than the input length, which is
always sufficient because every recursive call consumes at least one
character first. -/

def hexVal (c : Char) : Option Nat :=
  if '0' ≤ c ∧ c ≤ '9' then some (c.toNat - '0'.toNat)
  else if 'a' ≤ c ∧ c ≤ 'f' then some (c.toNat - 'a'.toNat + 10)
  else if 'A' ≤ c ∧ c ≤ 'F' then some (c.toNat - 'A'.toNat + 10)
  else none

def isDigit (c : Char) : Bool := '0' ≤ c && c ≤ '9'

def digitsToNat (ds : List Char) : Nat :=
  ds.foldl (fun acc c => acc * 10 + (c.toNat - '0'.toNat)) 0

/-- Body of a JSON string literal, after the opening quote.  Returns the
decoded characters and the remaining input after the closing quote. -/
def parseStrBody : Nat → List Char → Option (List Char × List Char)
  | 0, _ => none
  | _, [] => none
  | fuel + 1, c :: cs =>
    if c == '"' then some ([], cs)
    else if c == '\\' then
      match cs with
      | [] => none
      | e :: cs2 =>
        if e == 'u' then
          match cs2 with
          | h1 :: h2 :: h3 :: h4 :: cs3 =>
            match hexVal h1, hexVal h2, hexVal h3, hexVal h4 with
            | some a, some b, some c', some d =>
              (parseStrBody fuel cs3).map
                (fun (s, r) => (Char.ofNat (((a * 16 + b) * 16 + c') * 16 + d) :: s, r))
            | _, _, _, _ => none
          | _ => none
        else
          let dec : Option Char :=
            if e == '"' then some '"'
            else if e == '\\' then some '\\'
            else if e == '/' then some '/'
            else if e == 'b' then some (Char.ofNat 8)
            else if e == 'f' then some (Char.ofNat 12)
            else if e == 'n' then some '\n'
            else if e == 'r' then some '\r'
            else if e == 't' then some '\t'
            else none
          match dec with
          | some d => (parseStrBody fuel cs2).map (fun (s, r) => (d :: s, r))
          | none => none
    else if c.toNat < 32 then none
    else (parseStrBody fuel cs).map (fun (s, r) => (c :: s, r))

/-- Combine sign, digits and a power-of-ten exponent into a `Dec`. -/
def decOfParts (neg : Bool) (digits : List Char) (e : Int) : Dec :=
  let m : Nat := digitsToNat digits
  let signed : Int → Int := fun x => if neg then -x else x
  if e ≥ 0 then ⟨signed (m * pow10 e.toNat), 0⟩
  else ⟨signed m, (-e).toNat⟩

/-- Read the signed digits of an exponent and pass the exponent value and
remaining input to the continuation; fail if no digits follow. -/
def parseExpDigits (k : Int → List Char → Option (Dec × List Char))
    (cs : List Char) : Option (Dec × List Char) :=
  let (negE, cs1) :=
    match cs with
    | '+' :: r => (false, r)
    | '-' :: r => (true, r)
    | _ => (false, cs)
  let ds := cs1.takeWhile isDigit
  if ds.isEmpty then none
  else k (if negE then -(digitsToNat ds : Int) else (digitsToNat ds : Int))
    (cs1.dropWhile isDigit)

/-- Exponent part of the JSON number grammar (`[eE][+-]?digits`), combined
with the already-read sign, integer and fraction digits into a `Dec`. -/
def parseNumTail (neg : Bool) (intDigits fracDigits : List Char)
    (cs : List Char) : Option (Dec × List Char) :=
  let withExp : Int → List Char → Option (Dec × List Char) := fun e rest =>
    some (decOfParts neg (intDigits ++ fracDigits) (e - fracDigits.length), rest)
  match cs with
  | 'e' :: rest => parseExpDigits withExp rest
  | 'E' :: rest => parseExpDigits withExp rest
  | _ => withExp 0 cs

/-- JSON number grammar: `-? int frac? exp?` with no leading zeros. -/
def parseNumber (cs : List Char) : Option (Dec × List Char) :=
  let (neg, cs1) :=
    match cs with
    | '-' :: rest => (true, rest)
    | _ => (false, cs)
  let intDigits := cs1.takeWhile isDigit
  let cs2 := cs1.dropWhile isDigit
  if intDigits.isEmpty then none
  else if intDigits.length > 1 && intDigits.headD '0' == '0' then none
  else
    match cs2 with
    | '.' :: rest =>
      let fracDigits := rest.takeWhile isDigit
      if fracDigits.isEmpty then none
      else parseNumTail neg intDigits fracDigits (rest.dropWhile isDigit)
    | _ => parseNumTail neg intDigits [] cs2

/-- Insert a key into an object field list the way JS object literals do:
a later duplicate key overwrites the earlier value in place. -/
def objSet (fields : List (String × Json)) (k : String) (v : Json) :
    List (String × Json) :=
  if fields.any (fun p => p.1 == k) then
    fields.map (fun p => if p.1 == k then (k, v) else p)
  else fields ++ [(k, v)]

mutual

/-- Parse one JSON value from the input (no leading whitespace). -/
def parseValue : Nat → List Char → Option (Json × List Char)
  | 0, _ => none
  | fuel + 1, cs =>
    match cs with
    | '{' :: rest => parseObjFields fuel (dropWs rest) []
    | '[' :: rest => parseArrElems fuel (dropWs rest) []
    | '"' :: rest =>
      (parseStrBody (rest.length + 1) rest).map
        (fun (s, r) => (Json.str (String.mk s), r))
    | 't' :: 'r' :: 'u' :: 'e' :: rest => some (.bool true, rest)
    | 'f' :: 'a' :: 'l' :: 's' :: 'e' :: rest => some (.bool false, rest)
    | 'n' :: 'u' :: 'l' :: 'l' :: rest => some (.null, rest)
    | _ => (parseNumber cs).map (fun (q, r) => (Json.num (jsNumOfDec q), r))

/-- Parse the members of an object, cursor just after `{` or after a comma
(leading whitespace already skipped). -/
def parseObjFields : Nat → List Char → List (String × Json) →
    Option (Json × List Char)
  | 0, _, _ => none
  | _ + 1, '}' :: rest, acc => if acc.isEmpty then some (.obj acc, rest) else none
  | fuel + 1, '"' :: rest, acc =>
    match parseStrBody (rest.length + 1) rest with
    | none => none
    | some (k, r1) =>
      match dropWs r1 with
      | ':' :: r2 =>
        match parseValue fuel (dropWs r2) with
        | none => none
        | some (v, r3) =>
          let acc2 := objSet acc (String.mk k) v
          match dropWs r3 with
          | ',' :: r4 => parseObjFields fuel (dropWs r4) acc2
          | '}' :: r4 => some (.obj acc2, r4)
          | _ => none
      | _ => none
  | _ + 1, _, _ => none

/-- Parse the elements of an array, cursor just after `[` or after a comma
(leading whitespace already skipped). -/
def parseArrElems : Nat → List Char → List Json → Option (Json × List Char)
  | 0, _, _ => none
  | fuel + 1, cs, acc =>
    match cs with
    | ']' :: rest => if acc.isEmpty then some (.arr acc, rest) else none
    | _ =>
      match parseValue fuel cs with
      | none => none
      | some (v, r1) =>
        match dropWs r1 with
        | ',' :: r2 => parseArrElems fuel (dropWs r2) (acc ++ [v])
        | ']' :: r2 => some (.arr (acc ++ [v]), r2)
        | _ => none

end

/-- Model of `JSON.parse`: `some` on valid JSON text, `none` on a parse
error (in JS, `JSON.parse` throws a `SyntaxError`). -/
def jsonParse (s : String) : Option Json :=
  match parseValue (4 * s.toList.length + 8) (dropWs s.toList) with
  | some (j, rest) => if dropWs rest == [] then some j else none
  | none => none

example : jsonParse "  \x7b\x22a\x22: [1, 2.5, -3e1], \x22b\x22: null\x7d " =
    some (.obj [("a", .arr [.num (.finite ⟨1, 0⟩), .num (.finite ⟨25, 1⟩),
      .num (.finite ⟨-30, 0⟩)]), ("b", .null)]) := by
  rfl

example : jsonParse "1e999" = some (.num .posInf) := rfl

example : jsonParse "-1e999" = some (.num .negInf) := rfl

example : jsonParse "1e-999" = some (.num (.finite ⟨0, 0⟩)) := rfl

example : jsonParse "[true, false]" = some (.arr [.bool true, .bool false]) := rfl

example : jsonParse "\x7bbroken" = none := rfl

example : jsonParse "\x22a\x5cnb\x22" = some (.str "a\nb") := rfl

example : jsonParse "" = none := rfl

example : jsonParse "[]" = some (.arr []) := rfl

example : jsonParse "\x7b\x7d" = some (.obj []) := rfl

example : jsonParse "01" = none := rfl

/-! ## Section extractor (model of `extractSections` and
`SECTION_HEADING_REGEX = /^##\s+(.+?)\s*$/gm`)

The regex is matched positionally over the whole string, as `matchAll`
does.  JS `\s` matches newlines, so the `\s+` after `##` may span lines:
a candidate starts at `##` at a line start (`^` with the `m` flag);
`\s+` greedily consumes whitespace (newlines included, at least one
character); the lazy group then captures from the first non-whitespace
character to the last non-whitespace character of *that* line (the
remainder of the line must be whitespace for `\s*$` to close the match);
the trailing `\s*` consumes only whitespace, so resuming the scan right
after the capture finds the same further headings, and the section body,
being trimmed, is unchanged by where inside that whitespace the match
formally ends.  When everything after `##` is whitespace, the backtracked
capture is a single space/tab at offset at least one (or the candidate
fails), and the captured name trims to the empty string. -/

/-- Try `\s+(.+?)\s*$` right after a `##` at a line start; on success
return the heading name (captured group trimmed, lower-cased) and the
input remaining after the captured group. -/
def tryHeadingMatch (cs : List Char) : Option (String × List Char) :=
  let w := cs.takeWhile jsWs
  let rest := cs.dropWhile jsWs
  if w.isEmpty then none
  else if rest.isEmpty then
    if (cs.drop 1).any (fun c => !(isLineTerm c)) then some ("", []) else none
  else
    let line := rest.takeWhile (fun c => !(isLineTerm c))
    let cap := dropWsEnd line
    some (jsLower (jsTrim (String.mk cap)), rest.drop cap.length)

/-- Positional scan for heading matches.  Returns the text before the
first heading together with the `(name, trimmed body)` list; a body runs
from the end of a capture to the start of the next match. -/
def scanBody : Nat → Bool → List Char → List Char × List (String × String)
  | 0, _, _ => ([], [])
  | _ + 1, _, [] => ([], [])
  | fuel + 1, atStart, c :: cs =>
    if atStart && c == '#' then
      match cs with
      | c2 :: cs2 =>
        if c2 == '#' then
          match tryHeadingMatch cs2 with
          | some (name, remaining) =>
            let next := scanBody fuel false remaining
            ([], (name, jsTrim (String.mk next.1)) :: next.2)
          | none =>
            let next := scanBody fuel (isLineTerm c) cs
            (c :: next.1, next.2)
        else
          let next := scanBody fuel (isLineTerm c) cs
          (c :: next.1, next.2)
      | [] => ([c], [])
    else
      let next := scanBody fuel (isLineTerm c) cs
      (c :: next.1, next.2)

/-- Model of `extractSections`: the association list of sections in
document order.  `Map.set` semantics (a repeated heading overwrites the
earlier capture) are realised by `getSection` taking the last matching
pair. -/
def extractSections (markdown : String) : List (String × String) :=
  (scanBody (markdown.toList.length + 1) true markdown.toList).2

/-- `sections.get(key)` with last-wins semantics. -/
def getSection (sections : List (String × String)) (key : String) :
    Option String :=
  match (sections.filter (fun p => p.1 == key)).getLast? with
  | some p => some p.2
  | none => none

example : extractSections "# Agent: A\n\n## Summary\nhello\nthere\n\n## Summary\nlast\n" =
    [("summary", "hello\nthere"), ("summary", "last")] := rfl

example : getSection (extractSections "## A\nx\n## B\ny") "b" = some "y" := rfl

example : getSection (extractSections "## A\nx") "b" = none := rfl

-- the `\s+` of the heading pattern spans newlines
example : extractSections "##\nInputs\nno block" = [("inputs", "no block")] := rfl

example : extractSections "# Agent: A\n##\nQuery\nDo the thing\n" =
    [("query", "Do the thing")] := rfl

-- `###` is not a heading; `##` followed only by line terminators is not a
-- heading, while `##` followed by spaces captures an empty name
example : extractSections "### x\n##\n\n" = [] := rfl

example : extractSections "### x\n##x\n" = [] := rfl

example : extractSections "##  " = [("", "")] := rfl

/-! ## Name resolver (model of `extractAgentName` and
`AGENT_NAME_REGEX = /^#\s*Agent:\s*(.+)$/im`)

Matched positionally like `.match`: the first position where `^` holds
(string start or just after a line terminator) and the whole pattern
succeeds wins.  Both `\s*` may span newlines; `(.+)` is greedy over
non-terminator characters, so the capture runs from the first
non-whitespace character after `Agent:` to the end of that line.  When
everything after `Agent:` is whitespace, greedy backtracking leaves a
single space/tab as the capture (trimming to empty) provided one exists
— otherwise the candidate fails and the scan moves on. -/

/-- Model of `\s*(.+)$` after the `Agent:` literal. -/
def captureAfterWs (t : List Char) : Option (List Char) :=
  let r := t.dropWhile jsWs
  if !r.isEmpty then some (r.takeWhile (fun c => !(isLineTerm c)))
  else
    match t.reverse.find? (fun c => !(isLineTerm c)) with
    | some c => some [c]
    | none => none

/-- Try the pattern right after a `#` at a line start. -/
def tryAgentMatch (cs : List Char) : Option (List Char) :=
  match dropCIPat "agent:".toList (cs.dropWhile jsWs) with
  | none => none
  | some t => captureAfterWs t

/-- Positional scan for the first full match. -/
def agentScan : Bool → List Char → Option (List Char)
  | _, [] => none
  | atStart, c :: cs =>
    if atStart && c == '#' then
      match tryAgentMatch cs with
      | some cap => some cap
      | none => agentScan (isLineTerm c) cs
    else agentScan (isLineTerm c) cs

/-- The capture of the first position matching the agent-name pattern. -/
def firstAgentCapture (markdown : String) : Option String :=
  (agentScan true markdown.toList).map String.mk

/-- Model of `extractAgentName`. -/
def extractAgentName (markdown source : String) : Except String String :=
  match firstAgentCapture markdown with
  | none =>
    .error ("Missing \x22# Agent: <name>\x22 header in " ++ source ++ ".")
  | some captured =>
    let name := jsTrim captured
    if name == "" then .error ("Agent name is empty in " ++ source ++ ".")
    else .ok name

example : extractAgentName "hello\n#  aGeNt:  Code Cartographer  \nrest" "f" =
    .ok "Code Cartographer" := rfl

-- both `\s*` of the name pattern span newlines
example : extractAgentName "#\nAgent: Bob" "f" = .ok "Bob" := rfl

example : extractAgentName "# Agent:\nBob" "f" = .ok "Bob" := rfl

example : extractAgentName "## Agent: nope" "f" =
    .error "Missing \x22# Agent: <name>\x22 header in f." := rfl

example : extractAgentName "# Agent:   " "f" =
    .error "Agent name is empty in f." := rfl

/-! ## Fenced-block helpers -/

/-- Model of the global replace `section.replace(/\x60\x60\x60[\s\S]*?\x60\x60\x60/g, '')`:
repeatedly delete complete fenced blocks; an unmatched opening fence is
left in place. -/
def stripFencesC : Nat → List Char → List Char
  | 0, cs => cs
  | fuel + 1, cs =>
    match splitAtTicks cs with
    | none => cs
    | some (before, rest) =>
      match splitAtTicks rest with
      | none => cs
      | some (_, next) => before ++ stripFencesC fuel next

def stripFences (s : String) : String :=
  String.mk (stripFencesC (s.toList.length + 1) s.toList)

/-- Model of `JSON_BLOCK_REGEX = /\x60\x60\x60json\s*([\s\S]*?)\x60\x60\x60/i` applied with
`.match` (first match): find the first case-insensitive `\x60\x60\x60json`, skip
whitespace greedily, capture lazily up to the next `\x60\x60\x60`. -/
def findJsonBlock (s : String) : Option String :=
  match searchCI ("```json".toList.map Char.toLower) s.toList with
  | none => none
  | some rest =>
    match splitAtTicks (dropWs rest) with
    | some (captured, _) => some (String.mk captured)
    | none => none

example : findJsonBlock "text ```JSON  [1] ``` tail" = some "[1] " := rfl

example : findJsonBlock "text ``` [1] ```" = none := rfl

example : findJsonBlock "```json [1]" = none := rfl

example : stripFences "a ```x\ny``` b ```z``` c" = "a  b  c" := rfl

example : stripFences "a ```x" = "a ```x" := rfl

/-! ## A structural size for JSON values (used as fuel bounds) -/

mutual

/-- Structural size of a JSON value. -/
def jsonSize : Json → Nat
  | .null => 1
  | .bool _ => 1
  | .num _ => 1
  | .str _ => 1
  | .arr elems => 1 + jsonSizeElems elems
  | .obj fields => 1 + jsonSizeFields fields

def jsonSizeElems : List Json → Nat
  | [] => 0
  | e :: rest => 1 + jsonSize e + jsonSizeElems rest

def jsonSizeFields : List (String × Json) → Nat
  | [] => 0
  | f :: rest => 1 + jsonSize f.2 + jsonSizeFields rest

end

/-! ## String rendering of JS values (for `parseStringArray`'s
`value?.toString()`) -/

def digitChar (n : Nat) : Char := Char.ofNat (48 + n % 10)

def natDigitsRev : Nat → Nat → List Char
  | 0, _ => []
  | fuel + 1, n => if n < 10 then [digitChar n] else digitChar (n % 10) :: natDigitsRev fuel (n / 10)

def natToStr (n : Nat) : String := String.mk (natDigitsRev (n + 1) n).reverse

def intToStr (i : Int) : String :=
  if i < 0 then "-" ++ natToStr i.natAbs else natToStr i.natAbs

/-- Remove factors of ten shared by mantissa and scale so that the decimal
prints without trailing zeros, as JS number formatting does. -/
def decNormalize : Nat → Dec → Dec
  | 0, d => d
  | fuel + 1, d =>
    if d.scale > 0 && d.mant % 10 == 0 then decNormalize fuel ⟨d.mant / 10, d.scale - 1⟩
    else d

def padZeros (s : String) (n : Nat) : String :=
  String.mk (List.replicate (n - s.length) '0') ++ s

/-- JS rendering of a finite decimal number, in plain decimal expansion.
(`Number.prototype.toString` switches to exponential notation outside
roughly `1e-7 .. 1e21`; that regime is not modelled — it is observable
only through `parseStringArray`'s rendering of numeric tool/MCP entries,
which no claim exercises.) -/
def decToString (d0 : Dec) : String :=
  let d := decNormalize d0.scale d0
  if d.scale == 0 then intToStr d.mant
  else
    let a := d.mant.natAbs
    let p := pow10 d.scale
    (if d.mant < 0 then "-" else "") ++ natToStr (a / p) ++ "." ++
      padZeros (natToStr (a % p)) d.scale

/-- `value.toString()` for a non-nullish JS value (fuel for nested
arrays; arrays render as their elements joined with commas, with nullish
elements rendered empty, and plain objects as `[object Object]`). -/
def jsToString : Nat → Json → String
  | _, .str s => s
  | _, .bool b => if b then "true" else "false"
  | _, .num (.finite d) => decToString d
  | _, .num .posInf => "Infinity"
  | _, .num .negInf => "-Infinity"
  | _, .null => "null"
  | _, .obj _ => "[object Object]"
  | 0, .arr _ => ""
  | fuel + 1, .arr elems =>
    joinWith "," (elems.map (fun e =>
      match e with
      | .null => ""
      | v => jsToString fuel v))

/-! ## Structured-section grammar (model of `parseJsonSection` and the
per-section parsers) -/

/-- The thrown message for a structured section without a JSON block. -/
def expectedBlockMsg (key source : String) : String :=
  "Expected a JSON code block in \x22" ++ key ++ "\x22 section of " ++ source ++ "."

/-- The thrown message for a structured section whose block is not valid
JSON (the interpolated `JSON.parse` error text is not modelled). -/
def invalidJsonMsg (key source : String) : String :=
  "Invalid JSON in \x22" ++ key ++ "\x22 section of " ++ source ++ ": syntax error."

/-- Model of `parseJsonSection`: `undefined` when the section is absent or
empty (`if (!section) return undefined`), otherwise the first labelled
JSON block must exist and parse. -/
def parseJsonSection (sections : List (String × String)) (key source : String) :
    Except String (Option Json) :=
  match getSection sections key with
  | none => .ok none
  | some sec =>
    if sec == "" then .ok none
    else
      match findJsonBlock sec with
      | none => .error (expectedBlockMsg key source)
      | some content =>
        match jsonParse content with
        | none => .error (invalidJsonMsg key source)
        | some j => .ok (some j)

/-- Model of `getText`: strip fenced blocks, trim, empty becomes
`undefined` (both via `if (!section)` and the trailing `|| undefined`). -/
def getText (sections : List (String × String)) (key : String) : Option String :=
  match getSection sections key with
  | none => none
  | some sec =>
    if sec == "" then none
    else
      let t := jsTrim (stripFences sec)
      if t == "" then none else some t

/-- Model of `extractGuidelines`: bullet lines (leading hyphens and
whitespace stripped) if any, else the non-empty lines joined by spaces,
else `undefined`. -/
def extractGuidelines (sect : Option String) : Option (List String) :=
  match sect with
  | none => none
  | some sec =>
    if sec == "" then none
    else
      let ls := ((linesOf sec).map jsTrim).filter (fun l => l.length > 0)
      let bullets := ((ls.filter (fun l => l.startsWith "-")).map
        (fun l => jsTrim (String.mk ((l.toList.dropWhile (fun c => c == '-')).dropWhile jsWs)))).filter
        (fun l => l.length > 0)
      if bullets.length > 0 then some bullets
      else if ls.length > 0 then some [joinWith " " ls]
      else none

/-- The fixed set of declarable input types (`ALLOWED_INPUT_TYPES`). -/
def ALLOWED_INPUT_TYPES : List String :=
  ["string", "number", "boolean", "integer", "string[]", "number[]"]

/-- One sanitized input row before the validity filters: `name` and `type`
may still be `undefined` (the source's `input.name?.trim()` etc.). -/
structure RawSanInput where
  rawName : Option String
  rawType : Option String
  rawRequired : Json
  rawDescription : String

/-- A surviving input row (the source's `AgentInputSpec` after the filters
and the `as AgentInputSpec[]` cast). -/
structure SanInput where
  name : String
  type : String
  required : Json
  description : String

/-- `v?.trim()` where `v` should be a string: nullish gives `undefined`,
a string is trimmed, anything else throws a `TypeError`. -/
def optStrTrim (v : Option Json) : Except String (Option String) :=
  match v with
  | none => .ok none
  | some .null => .ok none
  | some (.str s) => .ok (some (jsTrim s))
  | some _ => .error "TypeError: trim is not a function"

/-- Is the value JSON `null`? -/
def isNull (e : Json) : Bool :=
  match e with
  | .null => true
  | _ => false

/-- One element of the `inputs` array put through the source's sanitising
map: `{ name: input.name?.trim(), type: input.type?.trim()?.toLowerCase(),
required: input.required ?? true, description: input.description?.trim() ?? '' }`.
Reading any property of `null` throws. -/
def sanitizeInput (e : Json) : Except String RawSanInput :=
  if isNull e then .error "TypeError: cannot read properties of null"
  else do
    let n ← optStrTrim (getField e "name")
    let t0 ← optStrTrim (getField e "type")
    let t := t0.map jsLower
    let req :=
      match getField e "required" with
      | none => Json.bool true
      | some .null => Json.bool true
      | some v => v
    let dsc ←
      match optStrTrim (getField e "description") with
      | .ok o => .ok (o.getD "")
      | .error m => .error m
    .ok ⟨n, t, req, dsc⟩

/-- The source's two filters (`!!input.name && !!input.type` and
`ALLOWED_INPUT_TYPES.has(input.type)`) fused with the final cast into a
single `filterMap` step. -/
def keepValid (r : RawSanInput) : Option SanInput :=
  match r.rawName, r.rawType with
  | some n, some t =>
    if n != "" && t != "" && ALLOWED_INPUT_TYPES.contains t then
      some ⟨n, t, r.rawRequired, r.rawDescription⟩
    else none
  | _, _ => none

/-- `mapM` for `Except`, written out structurally. -/
def mapSan : List Json → Except String (List RawSanInput)
  | [] => .ok []
  | e :: rest => do
    let r ← sanitizeInput e
    let rs ← mapSan rest
    .ok (r :: rs)

/-- Model of `parseInputs`.  The `!inputs || inputs.length === 0` guard
admits the JS-falsy values, the empty array, and any object whose
`length` property is the number 0; any other truthy non-array reaches
`inputs.map`, which throws. -/
def parseInputs (inputs : Option Json) : Except String (Option (List SanInput)) :=
  match inputs with
  | none => .ok none
  | some .null => .ok none
  | some (.bool false) => .ok none
  | some (.bool true) => .error "TypeError: inputs.map is not a function"
  | some (.num v) =>
    if v.isZeroB then .ok none else .error "TypeError: inputs.map is not a function"
  | some (.str s) =>
    if s == "" then .ok none else .error "TypeError: inputs.map is not a function"
  | some (.obj fields) =>
    -- `inputs.length === 0`: an object whose `length` property is the
    -- number 0 returns `undefined`; any other truthy object reaches
    -- `inputs.map`, which throws
    match getField (.obj fields) "length" with
    | some (.num n) =>
      if n.isZeroB then .ok none else .error "TypeError: inputs.map is not a function"
    | _ => .error "TypeError: inputs.map is not a function"
  | some (.arr xs) =>
    if xs.isEmpty then .ok none
    else do
      let sanitized ← mapSan xs
      let valid := sanitized.filterMap keepValid
      .ok (if valid.isEmpty then none else some valid)

/-- The source's `AgentOutputSpec` after `parseOutput` normalisation:
`outType` is `"json"` or `"text"`. -/
structure OutputSpec where
  name : String
  outType : String
  description : String
  schema : Option Json

/-- Model of `parseOutput`: falsy gives `undefined`; `name` defaults to
`"result"` through `|| 'result'` (so an all-whitespace name also
defaults); `type` is `"json"` only when it lower-cases to `"json"`;
`description` defaults to `""`; `schema` passes through untouched. -/
def parseOutput (output : Option Json) : Except String (Option OutputSpec) :=
  if !truthy output then .ok none
  else
    match output with
    | none => .ok none
    | some o => do
      let n0 ← optStrTrim (getField o "name")
      let name := match n0 with
        | some s => if s == "" then "result" else s
        | none => "result"
      let ty ←
        match getField o "type" with
        | none => Except.ok "text"
        | some .null => Except.ok "text"
        | some (.str s) => Except.ok (if jsLower s == "json" then "json" else "text")
        | some _ => Except.error "TypeError: toLowerCase is not a function"
      let d0 ← optStrTrim (getField o "description")
      let description := match d0 with
        | some s => if s == "" then "" else s
        | none => ""
      .ok (some ⟨name, ty, description, getField o "schema"⟩)

/-- Remove duplicates keeping the first occurrence of each element, the
order `Array.from(new Set(xs))` produces. -/
def dedupFirst (seen : List String) : List String → List String
  | [] => []
  | x :: xs =>
    if seen.contains x then dedupFirst seen xs
    else x :: dedupFirst (seen ++ [x]) xs

/-- Model of `parseStringArray`: non-arrays give `undefined`; elements are
rendered with `value?.toString().trim()` (nullish elements become
`undefined`), falsy results dropped, duplicates removed keeping first
occurrences. -/
def parseStringArray (values : Option Json) : Option (List String) :=
  match values with
  | some (.arr xs) =>
    let sanitized := xs.filterMap (fun v =>
      match v with
      | .null => none
      | v =>
        let s := jsTrim (jsToString (jsonSize v + 1) v)
        if s == "" then none else some s)
    if sanitized.isEmpty then none else some (dedupFirst [] sanitized)
  | _ => none

/-- The source's `AgentModelSpec` after `parseModel`. -/
structure ModelSpec where
  model : Option String
  temperature : Option JsNum
  top_p : Option JsNum
  thinkingBudget : Option JsNum

/-- Model of `parseModel`: falsy gives `undefined`; `model` is
`model.model?.trim()`; numeric fields pass through only when their value
is an actual number (`typeof === 'number'`). -/
def parseModel (model : Option Json) : Except String (Option ModelSpec) :=
  if !truthy model then .ok none
  else
    match model with
    | none => .ok none
    | some m => do
      let mname ← optStrTrim (getField m "model")
      let numField : String → Option JsNum := fun key =>
        match getField m key with
        | some (.num v) => some v
        | _ => none
      .ok (some ⟨mname, numField "temperature", numField "top_p",
        numField "thinkingBudget"⟩)

/-- The source's `AgentRunConfigSpec` after `parseRunConfig`. -/
structure RunSpec where
  max_time_minutes : Option JsNum
  max_turns : Option JsNum

/-- Model of `parseRunConfig`: falsy gives `undefined`; the two limits
pass through only when numeric. -/
def parseRunConfig (run : Option Json) : Option RunSpec :=
  if !truthy run then none
  else
    match run with
    | none => none
    | some r =>
      let numField : String → Option JsNum := fun key =>
        match getField r key with
        | some (.num v) => some v
        | _ => none
      some ⟨numField "max_time_minutes", numField "max_turns"⟩

/-! ## The schema compiler (model of `jsonSchemaToZod` / `buildZodSchema`)
and the zod validator semantics -/

/-- Executable validator/type descriptors — the image of the zod
combinators the source uses (`z.string()`, `z.number()`,
`z.number().int()`, `z.boolean()`, `z.any()`, `z.array`, `z.record(z.any())`,
`z.object(shape).passthrough()` with per-field `.optional()`). -/
inductive ZodSchema where
  | zAny
  | zString
  | zNumber
  | zInt
  | zBoolean
  | zRecord
  | zArray (item : ZodSchema)
  | zObject (shape : List (String × ZodSchema × Bool))

mutual

/-- Structural size of a descriptor (fuel bound for the semantics). -/
def zodSize : ZodSchema → Nat
  | .zArray item => 1 + zodSize item
  | .zObject shape => 1 + zodShapeSize shape
  | _ => 1

def zodShapeSize : List (String × ZodSchema × Bool) → Nat
  | [] => 0
  | e :: rest => 1 + zodSize e.2.1 + zodShapeSize rest

end

/-- Model of `jsonSchemaToZod`, the recursive JSON-Schema translator.  The
fuel argument only bounds the recursion depth; `buildZodSchema` passes
`jsonSize + 1`, which always suffices since every recursive call descends
into a structurally smaller node. -/
def jsonSchemaToZodF : Nat → Json → ZodSchema
  | 0, _ => .zAny
  | fuel + 1, schema =>
    let ty : Option String :=
      match getField schema "type" with
      | some (.str t) => some t
      | _ => none
    match ty with
    | some "string" => .zString
    | some "number" => .zNumber
    | some "integer" => .zInt
    | some "boolean" => .zBoolean
    | some "array" =>
      -- `typeof items === 'object' && items !== null`
      match getField schema "items" with
      | some (.arr xs) => .zArray (jsonSchemaToZodF fuel (.arr xs))
      | some (.obj fs) => .zArray (jsonSchemaToZodF fuel (.obj fs))
      | _ => .zArray .zAny
    | some "object" =>
      let req : List String :=
        match getField schema "required" with
        | some (.arr xs) => xs.filterMap (fun v =>
            match v with
            | .str s => some s
            | _ => none)
        | _ => []
      -- `typeof properties === 'object' && properties !== null`; an array
      -- is an object in JS, and `Object.entries` of an array yields
      -- index-keyed entries.
      let entries : Option (List (String × Json)) :=
        match getField schema "properties" with
        | some (.obj props) => some props
        | some (.arr xs) => some ((xs.zipWith (fun v i => (natToStr i, v)) (List.range xs.length)))
        | _ => none
      match entries with
      | none => .zRecord
      | some props =>
        .zObject (props.map (fun p =>
          let propertySchema :=
            match p.2 with
            | .arr a => jsonSchemaToZodF fuel (.arr a)
            | .obj o => jsonSchemaToZodF fuel (.obj o)
            | _ => .zAny
          (p.1, propertySchema, !req.contains p.1)))
    | _ => .zAny

/-- `jsonSchemaToZod` with its sufficient fuel. -/
def jsonSchemaToZod (schema : Json) : ZodSchema :=
  jsonSchemaToZodF (jsonSize schema + 1) schema

/-- Model of `buildZodSchema`: JS-falsy values and non-objects fall back to
`z.any()`; objects and arrays are translated.  The source also wraps the
translation in `try/catch`; the embedding is total, so no catch path is
needed. -/
def buildZodSchema (schema : Option Json) : ZodSchema :=
  match schema with
  | some (.arr xs) => jsonSchemaToZod (.arr xs)
  | some (.obj fs) => jsonSchemaToZod (.obj fs)
  | _ => .zAny

/-- Acceptance semantics of the zod descriptors on JSON values.  Object
validators are passthrough: declared fields are checked (an absent field
is only allowed when optional), extra fields are ignored.  Fuelled; the
wrapper passes sufficient fuel. -/
def zodAcceptsF : Nat → ZodSchema → Json → Bool
  | 0, _, _ => true
  | fuel + 1, s, v =>
    match s, v with
    | .zAny, _ => true
    | .zString, .str _ => true
    | .zString, _ => false
    | .zNumber, .num _ => true
    | .zNumber, _ => false
    | .zInt, .num n => n.isIntB
    | .zInt, _ => false
    | .zBoolean, .bool _ => true
    | .zBoolean, _ => false
    | .zRecord, .obj _ => true
    | .zRecord, _ => false
    | .zArray item, .arr xs => xs.all (zodAcceptsF fuel item)
    | .zArray _, _ => false
    | .zObject shape, .obj fields =>
      shape.all (fun e =>
        match getField (.obj fields) e.1 with
        | some v2 => zodAcceptsF fuel e.2.1 v2
        | none => e.2.2)
    | .zObject _, _ => false

/-- Does the compiled validator accept the value? -/
def zodAccepts (s : ZodSchema) (v : Json) : Bool :=
  zodAcceptsF (zodSize s + jsonSize v + 1) s v

/-! ## Defaulters and assembler -/

/-- Modelled from the spec: the default model identifier is provided by an
external configuration collaborator (`../config/models.js`, which is not
among the sources); its concrete value is not observable by any claim. -/
def DEFAULT_GEMINI_MODEL : String := "gemini-2.5-pro"

/-- Modelled from the spec: the default "thinking" budget provided by the
external configuration collaborator; its concrete value is not observable
by any claim. -/
def DEFAULT_THINKING_MODE : JsNum := .finite ⟨-1, 0⟩

def DEFAULT_MAX_TIME_MINUTES : Dec := ⟨5, 0⟩
def DEFAULT_MAX_TURNS : Dec := ⟨10, 0⟩
def DEFAULT_TEMPERATURE : JsNum := .finite ⟨2, 1⟩
def DEFAULT_TOP_P : JsNum := .finite ⟨9, 1⟩

/-- JS truthiness of an optional string (`undefined` and `''` are falsy). -/
def optTruthy (o : Option String) : Bool :=
  match o with
  | some s => s != ""
  | none => false

/-- `o || alt` on an optional string. -/
def orTruthyStr (o : Option String) (alt : String) : String :=
  match o with
  | some s => if s != "" then s else alt
  | none => alt

/-- The intermediate `ParsedAgentConfig`. -/
structure ParsedAgentConfig where
  name : String
  summary : Option String
  persona : Option String
  role : Option String
  guidelines : Option (List String)
  inputs : Option (List SanInput)
  output : Option OutputSpec
  tools : Option (List String)
  mcpServers : Option (List String)
  model : Option ModelSpec
  runConfig : Option RunSpec
  query : Option String
  systemPrompt : Option String

structure PromptConfig where
  systemPrompt : String
  query : String

structure ModelConfig where
  model : String
  temp : JsNum
  top_p : JsNum
  thinkingBudget : JsNum

structure RunConfig where
  max_time_minutes : JsNum
  max_turns : JsNum

structure ToolConfig where
  tools : List String

structure InputEntry where
  description : String
  type : String
  required : Json

structure InputConfig where
  inputs : List (String × InputEntry)

structure OutputConfig where
  outputName : String
  description : String
  schema : ZodSchema

/-- The final `AgentDefinition`.  `processOutput` is a function in the
source (`JSON.stringify` post-processing); the model records whether it is
attached (`expectsJsonOutput`). -/
structure AgentDefinition where
  name : String
  displayName : String
  description : String
  promptConfig : PromptConfig
  modelConfig : ModelConfig
  runConfig : RunConfig
  toolConfig : Option ToolConfig
  outputConfig : OutputConfig
  inputConfig : InputConfig
  processOutput : Bool

/-- Model of `buildConfigFromSections`: the per-section parsers chained in
source order; the first throw aborts the whole document. -/
def buildConfigFromSections (name : String) (sections : List (String × String))
    (source : String) : Except String ParsedAgentConfig := do
  let guidelines := extractGuidelines (getSection sections "guidelines")
  let ji ← parseJsonSection sections "inputs" source
  let inputs ← parseInputs ji
  let jo ← parseJsonSection sections "output" source
  let output ← parseOutput jo
  let jt ← parseJsonSection sections "tools" source
  let tools := parseStringArray jt
  let jm ← parseJsonSection sections "mcp" source
  let mcpServers := parseStringArray jm
  let jmd ← parseJsonSection sections "model" source
  let model ← parseModel jmd
  let jr ← parseJsonSection sections "run config" source
  let runConfig := parseRunConfig jr
  .ok
    { name := name
      summary := (getText sections "summary").orElse (fun _ => getText sections "role")
      persona := getText sections "persona"
      role := getText sections "role"
      guidelines := guidelines
      inputs := inputs
      output := output
      tools := tools
      mcpServers := mcpServers
      model := model
      runConfig := runConfig
      query := getText sections "query"
      systemPrompt := getText sections "system prompt" }

/-- The default single `objective` input. -/
def defaultObjectiveInput : SanInput :=
  ⟨"objective", "string", .bool true,
    "Detailed description of the task to accomplish."⟩

/-- Model of `mapInputType`: canonicalise a declared input type. -/
def mapInputType (ty : String) : String :=
  match ty with
  | "number" => "number"
  | "integer" => "number"
  | "boolean" => "boolean"
  | "string[]" => "string[]"
  | "number[]" => "number[]"
  | _ => "string"

/-- Model of `buildInputConfig`.  `Object.fromEntries` semantics (a later
duplicate name overwrites) are realised by reading the association list
with a last-wins lookup. -/
def buildInputConfig (inputs : Option (List SanInput)) : InputConfig :=
  let effectiveInputs :=
    match inputs with
    | some l => if l.length > 0 then l else [defaultObjectiveInput]
    | none => [defaultObjectiveInput]
  ⟨effectiveInputs.map (fun i =>
    (i.name, ⟨i.description, mapInputType i.type, i.required⟩))⟩

/-- Model of `buildOutputConfig`.  The source's return type admits
`undefined` but every branch returns a config, so the model is total. -/
def buildOutputConfig (output : Option OutputSpec) : OutputConfig :=
  match output with
  | none => ⟨"result", "Final answer generated by the agent.", .zString⟩
  | some o =>
    { outputName := o.name
      description :=
        if o.description != "" then o.description
        else if o.outType == "json" then
          "Structured JSON output generated by the agent."
        else "Textual result generated by the agent."
      schema := if o.outType == "json" then buildZodSchema o.schema else .zString }

/-- Model of `buildModelConfig` (`model?.model || DEFAULT_GEMINI_MODEL`,
numeric fields defaulted with `??`). -/
def buildModelConfig (model : Option ModelSpec) : ModelConfig :=
  { model :=
      match model with
      | some m => orTruthyStr m.model DEFAULT_GEMINI_MODEL
      | none => DEFAULT_GEMINI_MODEL
    temp := (model.bind ModelSpec.temperature).getD DEFAULT_TEMPERATURE
    top_p := (model.bind ModelSpec.top_p).getD DEFAULT_TOP_P
    thinkingBudget := (model.bind ModelSpec.thinkingBudget).getD DEFAULT_THINKING_MODE }

/-- Model of `buildRunConfig`: a declared limit is kept only when it is a
number (`some`), finite (`Number.isFinite`, which rejects the saturated
infinities), and strictly positive; otherwise the documented default
applies. -/
def buildRunConfig (runConfig : Option RunSpec) : RunConfig :=
  let keep : Option JsNum → Dec → JsNum := fun v dflt =>
    match v with
    | some n => if n.isFiniteB && n.gtZero then n else .finite dflt
    | none => .finite dflt
  ⟨keep (runConfig.bind RunSpec.max_time_minutes) DEFAULT_MAX_TIME_MINUTES,
   keep (runConfig.bind RunSpec.max_turns) DEFAULT_MAX_TURNS⟩

/-- Model of `buildToolConfig`. -/
def buildToolConfig (tools : Option (List String)) : Option ToolConfig :=
  match tools with
  | none => none
  | some l => if l.isEmpty then none else some ⟨l⟩

/-- Model of `buildSystemPrompt`: explicit system prompt verbatim
(trimmed), otherwise synthesized from role/summary, persona, guidelines
and the fixed closing sentence. -/
def buildSystemPrompt (config : ParsedAgentConfig) : String :=
  if optTruthy config.systemPrompt then jsTrim (config.systemPrompt.getD "")
  else
    let opening :=
      if optTruthy config.role || optTruthy config.summary then
        "You are **" ++ config.name ++ "**, " ++
          (match config.role with
           | some r => r
           | none => config.summary.getD "undefined") ++ "."
      else "You are **" ++ config.name ++ "**, a specialized assistant."
    let personaSegs :=
      match config.persona with
      | some p => if p != "" then ["Persona:\n" ++ p] else []
      | none => []
    let guidelineSegs :=
      match config.guidelines with
      | some g =>
        if g.length > 0 then
          ["Follow these guidelines:\n" ++ joinWith "\n" (g.map (fun l => "- " ++ l))]
        else []
      | none => []
    let segments := [opening] ++ personaSegs ++ guidelineSegs ++
      ["Think step-by-step, justify your reasoning, and provide actionable, concrete outputs."]
    jsTrim (joinWith "\n\n" segments)

/-- Model of `appendToolingContext`. -/
def appendToolingContext (prompt : String) (tools mcpServers : Option (List String)) :
    String :=
  let toolAdds :=
    match tools with
    | some t =>
      if t.length > 0 then
        ["You can invoke the following tools when needed: " ++ joinWith ", " t ++ "."]
      else []
    | none => []
  let mcpAdds :=
    match mcpServers with
    | some m =>
      if m.length > 0 then
        ["You have access to these MCP servers: " ++ joinWith ", " m ++
          ". Use them when they can provide better context or direct actions."]
      else []
    | none => []
  let additions := toolAdds ++ mcpAdds
  if additions.isEmpty then prompt
  else jsTrim (prompt ++ "\n\n" ++ joinWith "\n" additions)

/-- Model of `buildAgentDefinition`. -/
def buildAgentDefinition (config : ParsedAgentConfig) (source : String) :
    AgentDefinition :=
  let inputs := buildInputConfig config.inputs
  let expectsJsonOutput :=
    match config.output with
    | some o => o.outType == "json"
    | none => false
  let outputConfig := buildOutputConfig config.output
  let modelConfig := buildModelConfig config.model
  let runConfig := buildRunConfig config.runConfig
  let toolConfig := buildToolConfig config.tools
  let systemPrompt := buildSystemPrompt config
  let finalPrompt := appendToolingContext systemPrompt config.tools config.mcpServers
  { name := config.name
    displayName := config.name
    description :=
      orTruthyStr config.summary
        (orTruthyStr config.role ("Custom agent defined in " ++ source))
    promptConfig :=
      ⟨finalPrompt,
        match config.query with
        | some q => q
        | none => "Use the provided inputs to accomplish the requested task with precision."⟩
    modelConfig := modelConfig
    runConfig := runConfig
    toolConfig := toolConfig
    outputConfig := outputConfig
    inputConfig := inputs
    processOutput := expectsJsonOutput }

/-- Model of `parseAgentMarkdown`. -/
def parseAgentMarkdown (markdown : String) (source : String := "agent markdown") :
    Except String AgentDefinition := do
  let sections := extractSections markdown
  let name ← extractAgentName markdown source
  let config ← buildConfigFromSections name sections source
  .ok (buildAgentDefinition config source)

/-! ## Directory loader

The filesystem is abstracted: a directory is `none` when it does not exist
(`ENOENT`) and otherwise a listing of entries with name, file/dir flag and
content.  File reads are modelled as always succeeding with the entry's
content (a read failure takes the same per-file catch path as a parse
failure).  The loader returns the definitions and the logged warnings. -/

structure DirEntry where
  name : String
  isFile : Bool
  content : String

/-- `path.join(directory, entry.name)`. -/
def joinPath (dir file : String) : String := dir ++ "/" ++ file

/-- Is the entry picked up by the loader's filter? -/
def isAgentFile (e : DirEntry) : Bool :=
  e.isFile && jsEndsWith (jsLower e.name) ".agent.md"

/-- The per-file warning logged when a candidate file fails to parse. -/
def loadWarning (fullPath message : String) : String :=
  "[AgentRegistry] Failed to load agent from " ++ fullPath ++ ": " ++ message

/-- The loop body of `loadAgentsFromDirectory` over the directory listing. -/
def loadAgentsList (dir : String) : List DirEntry → List AgentDefinition × List String
  | [] => ([], [])
  | e :: rest =>
    let (defs, warns) := loadAgentsList dir rest
    if isAgentFile e then
      match parseAgentMarkdown e.content (joinPath dir e.name) with
      | .ok d => (d :: defs, warns)
      | .error m => (defs, loadWarning (joinPath dir e.name) m :: warns)
    else (defs, warns)

/-- Model of `loadAgentsFromDirectory`: a missing directory yields an empty
result; otherwise every regular file passing the name filter is parsed
independently, failures becoming warnings.  The function is total — the
batch never throws. -/
def loadAgentsFromDirectory (listing : Option (List DirEntry)) (directory : String) :
    List AgentDefinition × List String :=
  match listing with
  | none => ([], [])
  | some entries => loadAgentsList directory entries

/-! ## Claim-side helpers

Definitions phrased after the specification's vocabulary ("the declared
value", "the declared input entries"), used to state the claims; each is a
plain observation of the document through the extraction pipeline. -/

/-- The JSON value carried by a structured section, when the section is
present with a parsable first JSON block (`none` otherwise). -/
def sectJson (sections : List (String × String)) (key : String) : Option Json :=
  match getSection sections key with
  | none => none
  | some sec =>
    if sec == "" then none
    else
      match findJsonBlock sec with
      | none => none
      | some content => jsonParse content

/-- The numeric field `key` of an optional JSON object. -/
def numFieldOf (j : Option Json) (key : String) : Option JsNum :=
  match j with
  | some x =>
    match getField x key with
    | some (.num v) => some v
    | _ => none
  | none => none

/-- The elements of the declared `inputs` array of a document. -/
def declaredInputEntries (md : String) : List Json :=
  match sectJson (extractSections md) "inputs" with
  | some (.arr xs) => xs
  | _ => []

/-- An input entry the specification says is dropped: its name is absent
or empty after trimming, or its type is absent or (trimmed, lower-cased)
outside the fixed allowed set. -/
def entryDropped (e : Json) : Bool :=
  (match getField e "name" with
   | some (.str s) => jsTrim s == ""
   | _ => true) ||
  (match getField e "type" with
   | some (.str t) => !(ALLOWED_INPUT_TYPES.contains (jsLower (jsTrim t)))
   | _ => true)

/-! ## Shared inversion lemmas -/

/-- Successful parses factor through the name resolver, the section
compiler and the assembler. -/
theorem parse_ok_spec {md src : String} {d : AgentDefinition}
    (h : parseAgentMarkdown md src = .ok d) :
    ∃ name config, extractAgentName md src = .ok name ∧
      buildConfigFromSections name (extractSections md) src = .ok config ∧
      d = buildAgentDefinition config src := by
  unfold parseAgentMarkdown at h
  cases h1 : extractAgentName md src with
  | error e => simp [h1, Bind.bind, Except.bind] at h
  | ok name =>
    cases h2 : buildConfigFromSections name (extractSections md) src with
    | error e => simp [h1, h2, Bind.bind, Except.bind] at h
    | ok config =>
      simp [h1, h2, Bind.bind, Except.bind] at h
      exact ⟨name, config, rfl, h2, h.symm⟩

/-- Inversion of `buildConfigFromSections`: every per-section parser
succeeded and every field of the produced config is the corresponding
parser's output. -/
theorem buildConfig_ok_spec {name src : String} {secs : List (String × String)}
    {config : ParsedAgentConfig}
    (h : buildConfigFromSections name secs src = .ok config) :
    (∃ ji, parseJsonSection secs "inputs" src = .ok ji ∧
      parseInputs ji = .ok config.inputs) ∧
    (∃ jo, parseJsonSection secs "output" src = .ok jo ∧
      parseOutput jo = .ok config.output) ∧
    (∃ jt, parseJsonSection secs "tools" src = .ok jt ∧
      parseStringArray jt = config.tools) ∧
    (∃ jm, parseJsonSection secs "mcp" src = .ok jm ∧
      parseStringArray jm = config.mcpServers) ∧
    (∃ jmd, parseJsonSection secs "model" src = .ok jmd ∧
      parseModel jmd = .ok config.model) ∧
    (∃ jr, parseJsonSection secs "run config" src = .ok jr ∧
      parseRunConfig jr = config.runConfig) ∧
    config.name = name ∧
    config.guidelines = extractGuidelines (getSection secs "guidelines") ∧
    config.summary = (getText secs "summary").orElse (fun _ => getText secs "role") ∧
    config.persona = getText secs "persona" ∧
    config.role = getText secs "role" ∧
    config.query = getText secs "query" ∧
    config.systemPrompt = getText secs "system prompt" := by
  unfold buildConfigFromSections at h
  cases g1 : parseJsonSection secs "inputs" src with
  | error e => simp [g1, Bind.bind, Except.bind] at h
  | ok ji =>
  cases g2 : parseInputs ji with
  | error e => simp [g1, g2, Bind.bind, Except.bind] at h
  | ok pin =>
  cases g3 : parseJsonSection secs "output" src with
  | error e => simp [g1, g2, g3, Bind.bind, Except.bind] at h
  | ok jo =>
  cases g4 : parseOutput jo with
  | error e => simp [g1, g2, g3, g4, Bind.bind, Except.bind] at h
  | ok pout =>
  cases g5 : parseJsonSection secs "tools" src with
  | error e => simp [g1, g2, g3, g4, g5, Bind.bind, Except.bind] at h
  | ok jt =>
  cases g6 : parseJsonSection secs "mcp" src with
  | error e => simp [g1, g2, g3, g4, g5, g6, Bind.bind, Except.bind] at h
  | ok jm =>
  cases g7 : parseJsonSection secs "model" src with
  | error e => simp [g1, g2, g3, g4, g5, g6, g7, Bind.bind, Except.bind] at h
  | ok jmd =>
  cases g8 : parseModel jmd with
  | error e => simp [g1, g2, g3, g4, g5, g6, g7, g8, Bind.bind, Except.bind] at h
  | ok pmo =>
  cases g9 : parseJsonSection secs "run config" src with
  | error e => simp [g1, g2, g3, g4, g5, g6, g7, g8, g9, Bind.bind, Except.bind] at h
  | ok jr =>
    simp [g1, g2, g3, g4, g5, g6, g7, g8, g9, Bind.bind, Except.bind] at h
    subst h
    refine ⟨⟨ji, rfl, ?_⟩, ⟨jo, rfl, ?_⟩, ⟨jt, rfl, ?_⟩, ⟨jm, rfl, ?_⟩,
      ⟨jmd, rfl, ?_⟩, ⟨jr, rfl, ?_⟩, rfl, rfl, rfl, rfl, rfl, rfl, rfl⟩ <;>
      simp [g2, g4, g8]

/-- A structured section that parsed without error carries exactly
`sectJson` of the document. -/
theorem parseJsonSection_ok_val {secs : List (String × String)} {key src : String}
    {j : Option Json} (h : parseJsonSection secs key src = .ok j) :
    j = sectJson secs key := by
  unfold parseJsonSection at h
  unfold sectJson
  cases g1 : getSection secs key with
  | none => simp [g1] at h; simp [h]
  | some sec =>
    simp only [g1] at h ⊢
    by_cases g2 : sec == ""
    · simp [g2] at h; simp [g2, h]
    · simp only [g2] at h ⊢
      cases g3 : findJsonBlock sec with
      | none => simp [g2, g3] at h
      | some content =>
        simp only [g2, g3] at h ⊢
        cases g4 : jsonParse content with
        | none => simp [g4] at h
        | some v => simp [g4] at h ⊢; simp [h]

/-- Projections of the assembled definition. -/
theorem buildAgentDefinition_proj (config : ParsedAgentConfig) (source : String) :
    (buildAgentDefinition config source).name = config.name ∧
    (buildAgentDefinition config source).inputConfig = buildInputConfig config.inputs ∧
    (buildAgentDefinition config source).runConfig = buildRunConfig config.runConfig ∧
    (buildAgentDefinition config source).outputConfig = buildOutputConfig config.output ∧
    (buildAgentDefinition config source).promptConfig.query =
      (match config.query with
       | some q => q
       | none => "Use the provided inputs to accomplish the requested task with precision.") :=
  ⟨rfl, rfl, rfl, rfl, rfl⟩

/-! ## Claim C1: name extraction -/

/-- **C1** — `parseAgentMarkdown` succeeds only on documents containing a
first-level `# Agent: <name>` heading (case-insensitive on `Agent`): on
success the definition's name is the captured name trimmed (and
non-empty); a document without such a heading, or whose first captured
name trims to empty, always fails. -/
theorem C1_name_extraction (md src : String) :
    (∀ d : AgentDefinition, parseAgentMarkdown md src = .ok d →
      ∃ captured, firstAgentCapture md = some captured ∧
        jsTrim captured ≠ "" ∧ d.name = jsTrim captured) ∧
    ((firstAgentCapture md = none ∨
      (∃ captured, firstAgentCapture md = some captured ∧ jsTrim captured = "")) →
      ∃ e, parseAgentMarkdown md src = .error e) := by
  constructor
  · intro d h
    obtain ⟨name, config, h1, h2, h3⟩ := parse_ok_spec h
    unfold extractAgentName at h1
    cases g : firstAgentCapture md with
    | none => simp [g] at h1
    | some captured =>
      simp only [g] at h1
      by_cases ge : jsTrim captured == ""
      · simp [ge] at h1
      · simp only [ge, if_neg] at h1
        refine ⟨captured, rfl, by simpa using ge, ?_⟩
        have hn : name = jsTrim captured := by
          simp at h1; exact h1.symm
        subst h3
        rw [(buildAgentDefinition_proj config src).1, (buildConfig_ok_spec h2).2.2.2.2.2.2.1, hn]
  · intro h
    unfold parseAgentMarkdown extractAgentName
    rcases h with g | ⟨captured, g, ge⟩
    · exact ⟨"Missing \x22# Agent: <name>\x22 header in " ++ src ++ ".",
        by simp [g, Bind.bind, Except.bind]⟩
    · exact ⟨"Agent name is empty in " ++ src ++ ".",
        by simp [g, ge, Bind.bind, Except.bind]⟩

/-! ## Concrete material for witnesses -/

def emptyParsedConfig : ParsedAgentConfig :=
  ⟨"", none, none, none, none, none, none, none, none, none, none, none, none⟩

def fallbackAgentDefinition : AgentDefinition :=
  buildAgentDefinition emptyParsedConfig ""

def docC1 : String := "# Agent: Bob\n\n## Summary\nMaps things.\n"

def defC1 : AgentDefinition :=
  (parseAgentMarkdown docC1 "w1").toOption.getD fallbackAgentDefinition

/-- Witness for C1: a well-formed document parses and its name is the
trimmed capture; a heading-less document fails. -/
theorem C1_name_extraction_witness :
    (∃ captured, firstAgentCapture docC1 = some captured ∧
      jsTrim captured ≠ "" ∧ defC1.name = jsTrim captured) ∧
    (∃ e, parseAgentMarkdown "no heading here" "w1" = .error e) :=
  ⟨(C1_name_extraction docC1 "w1").1 defC1 rfl,
   (C1_name_extraction "no heading here" "w1").2 (Or.inl rfl)⟩

/-! ## Claim C2: structured sections require a JSON block — corrected

The claim asserts that a *present heading* whose body lacks a labelled
JSON block aborts the parse.  The source guards with
`if (!section) return undefined` and the extractor trims bodies, so a
present heading with an *empty* body is treated exactly like an absent
one: no error.  `C2_counterexample` exhibits this; the amended theorem
characterises the abort condition exactly. -/

/-- The six structured-section keys. -/
def structuredSectionKeys : List String :=
  ["inputs", "output", "tools", "mcp", "model", "run config"]

def docC2 : String := "# Agent: A\n\n## Inputs\n\n## Summary\nok"

/-- **C2 counterexample** — a document whose `## Inputs` heading is present
(with an empty body, hence no fenced JSON block anywhere in it) parses
successfully instead of aborting with an error naming the section. -/
theorem C2_counterexample :
    getSection (extractSections docC2) "inputs" = some "" ∧
    findJsonBlock "" = none ∧
    (parseAgentMarkdown docC2 "w2").isOk = true := by
  exact ⟨rfl, rfl, rfl⟩

/-- **C2 (amended)** — for every structured section key: the parse of that
section aborts iff its heading is present with a *non-empty* body that
either contains no fenced JSON block or whose first block's content does
not parse as JSON; the error then names the section; an absent heading
(or one with an empty body) contributes no error; and a successful
document-level parse implies every structured section parsed without
error. -/
theorem C2_structured_sections (md src key : String)
    (hk : key ∈ structuredSectionKeys) :
    ((∃ e, parseJsonSection (extractSections md) key src = .error e) ↔
      (∃ sec, getSection (extractSections md) key = some sec ∧ sec ≠ "" ∧
        (findJsonBlock sec = none ∨
          ∃ content, findJsonBlock sec = some content ∧ jsonParse content = none))) ∧
    (∀ e, parseJsonSection (extractSections md) key src = .error e →
      e = expectedBlockMsg key src ∨ e = invalidJsonMsg key src) ∧
    (∀ d : AgentDefinition, parseAgentMarkdown md src = .ok d →
      ∃ j, parseJsonSection (extractSections md) key src = .ok j) := by
  refine ⟨⟨?_, ?_⟩, ?_, ?_⟩
  · rintro ⟨e, he⟩
    unfold parseJsonSection at he
    cases g1 : getSection (extractSections md) key with
    | none => simp [g1] at he
    | some sec =>
      refine ⟨sec, rfl, ?_⟩
      simp only [g1] at he
      by_cases g2 : sec == ""
      · simp [g2] at he
      · refine ⟨by simpa using g2, ?_⟩
        simp only [g2] at he
        cases g3 : findJsonBlock sec with
        | none => exact Or.inl rfl
        | some content =>
          refine Or.inr ⟨content, rfl, ?_⟩
          simp only [g3] at he
          cases g4 : jsonParse content with
          | none => rfl
          | some j => simp [g2, g3, g4] at he
  · rintro ⟨sec, g1, g2, g3⟩
    unfold parseJsonSection
    rcases g3 with g3 | ⟨content, g3, g4⟩
    · exact ⟨expectedBlockMsg key src, by simp [g1, g2, g3]⟩
    · exact ⟨invalidJsonMsg key src, by simp [g1, g2, g3, g4]⟩
  · intro e he
    unfold parseJsonSection at he
    cases g1 : getSection (extractSections md) key with
    | none => simp [g1] at he
    | some sec =>
      simp only [g1] at he
      by_cases g2 : sec == ""
      · simp [g2] at he
      · simp only [g2] at he
        cases g3 : findJsonBlock sec with
        | none => simp [g2, g3] at he; exact Or.inl he.symm
        | some content =>
          simp only [g3] at he
          cases g4 : jsonParse content with
          | none => simp [g2, g3, g4] at he; exact Or.inr he.symm
          | some j => simp [g2, g3, g4] at he
  · intro d h
    obtain ⟨name, config, _, h2, _⟩ := parse_ok_spec h
    have hs := buildConfig_ok_spec h2
    simp only [structuredSectionKeys, List.mem_cons, List.not_mem_nil, or_false] at hk
    rcases hk with rfl | rfl | rfl | rfl | rfl | rfl
    · obtain ⟨ji, hji, _⟩ := hs.1
      exact ⟨ji, hji⟩
    · obtain ⟨jo, hjo, _⟩ := hs.2.1
      exact ⟨jo, hjo⟩
    · obtain ⟨jt, hjt, _⟩ := hs.2.2.1
      exact ⟨jt, hjt⟩
    · obtain ⟨jm, hjm, _⟩ := hs.2.2.2.1
      exact ⟨jm, hjm⟩
    · obtain ⟨jmd, hjmd, _⟩ := hs.2.2.2.2.1
      exact ⟨jmd, hjmd⟩
    · obtain ⟨jr, hjr, _⟩ := hs.2.2.2.2.2.1
      exact ⟨jr, hjr⟩

def docC2w : String := "# Agent: W2\n\n## Inputs\nnot a block\n"

/-- Witness for the amended C2: a present, non-empty `## Inputs` body with
no JSON block yields a section error, and the error message is one of the
two section-naming messages. -/
theorem C2_structured_sections_witness :
    (∃ e, parseJsonSection (extractSections docC2w) "inputs" "w2" = .error e) ∧
    (expectedBlockMsg "inputs" "w2" = expectedBlockMsg "inputs" "w2" ∨
      expectedBlockMsg "inputs" "w2" = invalidJsonMsg "inputs" "w2") :=
  ⟨(C2_structured_sections docC2w "w2" "inputs" (by decide)).1.mpr
      ⟨"not a block", rfl, by decide, Or.inl rfl⟩,
   (C2_structured_sections docC2w "w2" "inputs" (by decide)).2.1
      (expectedBlockMsg "inputs" "w2") rfl⟩

/-! ## Claim C4: run-config limits defaulted independently -/

/-- A positive decimal has positive rational value. -/
theorem Dec.val_pos {d : Dec} (h : d.isPos = true) : 0 < d.val := by
  unfold Dec.val
  have hm : (0 : ℚ) < (d.mant : ℚ) := by
    have h0 : (0 : Int) < d.mant := by simpa [Dec.isPos] using h
    exact_mod_cast h0
  exact div_pos hm (pow_pos (by norm_num) _)

/-- Characterisation of the compiled run config in terms of the declared
JSON: each limit is kept exactly when it is declared as a number that is
finite and strictly positive, independently of the other. -/
theorem runConfig_field_spec (j : Option Json) :
    (buildRunConfig (parseRunConfig j)).max_turns =
      (match numFieldOf j "max_turns" with
       | some v => if v.isFiniteB && v.gtZero then v else .finite DEFAULT_MAX_TURNS
       | none => .finite DEFAULT_MAX_TURNS) ∧
    (buildRunConfig (parseRunConfig j)).max_time_minutes =
      (match numFieldOf j "max_time_minutes" with
       | some v => if v.isFiniteB && v.gtZero then v
                   else .finite DEFAULT_MAX_TIME_MINUTES
       | none => .finite DEFAULT_MAX_TIME_MINUTES) := by
  cases j with
  | none => exact ⟨rfl, rfl⟩
  | some x =>
    cases x with
    | null => exact ⟨rfl, rfl⟩
    | bool b => cases b <;> exact ⟨rfl, rfl⟩
    | num v =>
      by_cases hz : v.isZeroB <;>
        simp [parseRunConfig, truthy, numFieldOf, getField, buildRunConfig, hz]
    | str s =>
      by_cases hz : s = "" <;>
        simp [parseRunConfig, truthy, numFieldOf, getField, buildRunConfig, hz]
    | arr xs =>
      constructor <;>
        simp [parseRunConfig, truthy, numFieldOf, getField, buildRunConfig]
    | obj fields =>
      constructor <;> {
        simp only [parseRunConfig, truthy, Bool.not_true, numFieldOf, buildRunConfig]
        cases g1 : getField (.obj fields) "max_turns" <;>
          cases g2 : getField (.obj fields) "max_time_minutes" <;>
          first
          | (rename_i v1 v2; cases v1 <;> cases v2 <;> simp [g1, g2, buildRunConfig])
          | (rename_i v1; cases v1 <;> simp [g1, g2, buildRunConfig])
          | simp [g1, g2, buildRunConfig]
      }

/-- **C4** — for every successfully compiled document, each run-config
limit is defaulted independently: `max_turns` equals the declared value
exactly when that value is a number that is finite and strictly greater
than zero, and `10 = DEFAULT_MAX_TURNS` otherwise (absent, zero,
negative, non-numeric, or non-finite — `JSON.parse` saturates
overflowing literals such as `1e999` to an infinity, which
`Number.isFinite` rejects); `max_time_minutes` likewise with default `5`;
and both compiled limits are strictly positive finite numbers. -/
theorem C4_run_config_defaulting (md src : String) (d : AgentDefinition)
    (h : parseAgentMarkdown md src = .ok d) :
    (d.runConfig.max_turns =
      (match numFieldOf (sectJson (extractSections md) "run config") "max_turns" with
       | some v => if v.isFiniteB && v.gtZero then v else .finite DEFAULT_MAX_TURNS
       | none => .finite DEFAULT_MAX_TURNS)) ∧
    (d.runConfig.max_time_minutes =
      (match numFieldOf (sectJson (extractSections md) "run config")
          "max_time_minutes" with
       | some v => if v.isFiniteB && v.gtZero then v
                   else .finite DEFAULT_MAX_TIME_MINUTES
       | none => .finite DEFAULT_MAX_TIME_MINUTES)) ∧
    DEFAULT_MAX_TURNS.val = 10 ∧ DEFAULT_MAX_TIME_MINUTES.val = 5 ∧
    (∃ dt, d.runConfig.max_turns = .finite dt ∧ 0 < dt.val) ∧
    (∃ dm, d.runConfig.max_time_minutes = .finite dm ∧ 0 < dm.val) := by
  obtain ⟨name, config, h1, h2, h3⟩ := parse_ok_spec h
  obtain ⟨jr, hjr, hrc⟩ := (buildConfig_ok_spec h2).2.2.2.2.2.1
  have hjv : jr = sectJson (extractSections md) "run config" :=
    parseJsonSection_ok_val hjr
  have hdr : d.runConfig = buildRunConfig (parseRunConfig jr) := by
    rw [h3, (buildAgentDefinition_proj config src).2.2.1, hrc]
  obtain ⟨e1, e2⟩ := runConfig_field_spec jr
  have c1 : d.runConfig.max_turns =
      (match numFieldOf (sectJson (extractSections md) "run config") "max_turns" with
       | some v => if v.isFiniteB && v.gtZero then v else .finite DEFAULT_MAX_TURNS
       | none => .finite DEFAULT_MAX_TURNS) := by
    rw [hdr, e1, hjv]
  have c2 : d.runConfig.max_time_minutes =
      (match numFieldOf (sectJson (extractSections md) "run config")
          "max_time_minutes" with
       | some v => if v.isFiniteB && v.gtZero then v
                   else .finite DEFAULT_MAX_TIME_MINUTES
       | none => .finite DEFAULT_MAX_TIME_MINUTES) := by
    rw [hdr, e2, hjv]
  refine ⟨c1, c2, by norm_num [Dec.val, DEFAULT_MAX_TURNS],
    by norm_num [Dec.val, DEFAULT_MAX_TIME_MINUTES], ?_, ?_⟩
  · rw [c1]
    cases g : numFieldOf (sectJson (extractSections md) "run config") "max_turns" with
    | none => exact ⟨DEFAULT_MAX_TURNS, rfl, Dec.val_pos (by decide)⟩
    | some v =>
      cases v with
      | finite dd =>
        by_cases hp : dd.isPos
        · refine ⟨dd, ?_, Dec.val_pos hp⟩
          simp [JsNum.isFiniteB, JsNum.gtZero, hp]
        · refine ⟨DEFAULT_MAX_TURNS, ?_, Dec.val_pos (by decide)⟩
          simp [JsNum.isFiniteB, JsNum.gtZero, hp]
      | posInf =>
        exact ⟨DEFAULT_MAX_TURNS, by simp [JsNum.isFiniteB], Dec.val_pos (by decide)⟩
      | negInf =>
        exact ⟨DEFAULT_MAX_TURNS, by simp [JsNum.isFiniteB], Dec.val_pos (by decide)⟩
  · rw [c2]
    cases g : numFieldOf (sectJson (extractSections md) "run config")
        "max_time_minutes" with
    | none => exact ⟨DEFAULT_MAX_TIME_MINUTES, rfl, Dec.val_pos (by decide)⟩
    | some v =>
      cases v with
      | finite dd =>
        by_cases hp : dd.isPos
        · refine ⟨dd, ?_, Dec.val_pos hp⟩
          simp [JsNum.isFiniteB, JsNum.gtZero, hp]
        · refine ⟨DEFAULT_MAX_TIME_MINUTES, ?_, Dec.val_pos (by decide)⟩
          simp [JsNum.isFiniteB, JsNum.gtZero, hp]
      | posInf =>
        exact ⟨DEFAULT_MAX_TIME_MINUTES, by simp [JsNum.isFiniteB],
          Dec.val_pos (by decide)⟩
      | negInf =>
        exact ⟨DEFAULT_MAX_TIME_MINUTES, by simp [JsNum.isFiniteB],
          Dec.val_pos (by decide)⟩

def docC4 : String :=
  "# Agent: W4\n\n## Run Config\n```json\n\x7b\x22max_turns\x22: 14, \x22max_time_minutes\x22: 1e999\x7d\n```\n"

def defC4 : AgentDefinition :=
  (parseAgentMarkdown docC4 "w4").toOption.getD fallbackAgentDefinition

/-- Witness for C4: a declared positive `max_turns` is kept while a
declared `max_time_minutes` of `1e999` (parsed to Infinity, hence not
finite) falls back to the default, and the compiled turns limit is a
positive finite number. -/
theorem C4_run_config_defaulting_witness :
    defC4.runConfig.max_turns = .finite ⟨14, 0⟩ ∧
    defC4.runConfig.max_time_minutes = .finite DEFAULT_MAX_TIME_MINUTES ∧
    (∃ dt, defC4.runConfig.max_turns = .finite dt ∧ 0 < dt.val) := by
  obtain ⟨e1, e2, _, _, p1, _⟩ := C4_run_config_defaulting docC4 "w4" defC4 rfl
  refine ⟨?_, ?_, p1⟩
  · rw [e1]; rfl
  · rw [e2]; rfl

/-! ## Claim C9: undocumented query fallback -/

/-- **C9** — for every successfully compiled document whose `## Query`
section is absent or empty after stripping fenced code blocks and
trimming (`getText` yields `undefined`), the definition's
`promptConfig.query` is the fixed fallback string. -/
theorem C9_query_default (md src : String) (d : AgentDefinition)
    (h : parseAgentMarkdown md src = .ok d)
    (hq : getText (extractSections md) "query" = none) :
    d.promptConfig.query =
      "Use the provided inputs to accomplish the requested task with precision." := by
  obtain ⟨name, config, h1, h2, h3⟩ := parse_ok_spec h
  have hcq : config.query = getText (extractSections md) "query" :=
    (buildConfig_ok_spec h2).2.2.2.2.2.2.2.2.2.2.2.1
  rw [h3, (buildAgentDefinition_proj config src).2.2.2.2, hcq.trans hq]

def docC9 : String := "# Agent: W9\n\n## Query\n```json\n[]\n```\n"

def defC9 : AgentDefinition :=
  (parseAgentMarkdown docC9 "w9").toOption.getD fallbackAgentDefinition

/-- Witness for C9: a document whose query section contains only a fenced
block (so its body strips to empty) gets the fallback query. -/
theorem C9_query_default_witness :
    getText (extractSections docC9) "query" = none ∧
    defC9.promptConfig.query =
      "Use the provided inputs to accomplish the requested task with precision." :=
  ⟨rfl, C9_query_default docC9 "w9" defC9 rfl rfl⟩

/-! ## Claim C3: input defaulting -/

/-- Inversion of the sanitising `mapM`. -/
theorem mapSan_ok_forall {xs : List Json} {rs : List RawSanInput}
    (h : mapSan xs = .ok rs) :
    List.Forall₂ (fun e r => sanitizeInput e = .ok r) xs rs := by
  induction xs generalizing rs with
  | nil =>
    simp only [mapSan] at h
    cases h
    exact .nil
  | cons e rest ih =>
    simp only [mapSan, Bind.bind, Except.bind] at h
    cases g1 : sanitizeInput e with
    | error m => rw [g1] at h; cases h
    | ok r =>
      rw [g1] at h
      cases g2 : mapSan rest with
      | error m => rw [g2] at h; cases h
      | ok rs2 =>
        rw [g2] at h
        cases h
        exact .cons g1 (ih g2)

/-- Inversion of `sanitizeInput`: all three string-field sanitisations
succeeded and determine the row's name and type. -/
theorem sanitizeInput_ok_fields {e : Json} {r : RawSanInput}
    (h : sanitizeInput e = .ok r) :
    ∃ n t0 o, optStrTrim (getField e "name") = .ok n ∧
      optStrTrim (getField e "type") = .ok t0 ∧
      optStrTrim (getField e "description") = .ok o ∧
      r.rawName = n ∧ r.rawType = t0.map jsLower := by
  unfold sanitizeInput at h
  by_cases hn : isNull e
  · simp [hn] at h
  · simp only [hn, Bool.false_eq_true, if_false, Bind.bind, Except.bind] at h
    cases g1 : optStrTrim (getField e "name") with
    | error m => simp only [g1] at h; exact Except.noConfusion h
    | ok n =>
      simp only [g1] at h
      cases g2 : optStrTrim (getField e "type") with
      | error m => simp only [g2] at h; exact Except.noConfusion h
      | ok t0 =>
        simp only [g2] at h
        cases g3 : optStrTrim (getField e "description") with
        | error m => simp only [g3] at h; exact Except.noConfusion h
        | ok o =>
          simp only [g3] at h
          cases h
          exact ⟨n, t0, o, rfl, rfl, rfl, rfl, rfl⟩

/-- A dropped entry (per the specification's drop conditions) never
survives the validity filter. -/
theorem dropped_keepValid {e : Json} {r : RawSanInput}
    (hs : sanitizeInput e = .ok r) (hd : entryDropped e = true) :
    keepValid r = none := by
  obtain ⟨n, t0, o, g1, g2, _, e1, e2⟩ := sanitizeInput_ok_fields hs
  unfold entryDropped at hd
  unfold keepValid
  cases gn : getField e "name" with
  | none =>
    rw [gn] at g1
    simp only [optStrTrim] at g1
    cases g1
    rw [e1]
  | some v =>
    cases v with
    | null =>
      rw [gn] at g1
      simp only [optStrTrim] at g1
      cases g1
      rw [e1]
    | bool b => rw [gn] at g1; simp [optStrTrim] at g1
    | num q => rw [gn] at g1; simp [optStrTrim] at g1
    | arr a => rw [gn] at g1; simp [optStrTrim] at g1
    | obj f => rw [gn] at g1; simp [optStrTrim] at g1
    | str s =>
      rw [gn] at g1
      simp only [optStrTrim] at g1
      cases g1
      rw [e1]
      simp only [gn, Bool.or_eq_true] at hd
      rcases hd with hd | hd
      · have hs0 : jsTrim s = "" := by simpa using hd
        cases h2 : r.rawType <;> simp [hs0, h2]
      · cases gt : getField e "type" with
        | none =>
          rw [gt] at g2
          simp only [optStrTrim] at g2
          cases g2
          simp [e2]
        | some w =>
          cases w with
          | null =>
            rw [gt] at g2
            simp only [optStrTrim] at g2
            cases g2
            simp [e2]
          | bool b => rw [gt] at g2; simp [optStrTrim] at g2
          | num q => rw [gt] at g2; simp [optStrTrim] at g2
          | arr a => rw [gt] at g2; simp [optStrTrim] at g2
          | obj f => rw [gt] at g2; simp [optStrTrim] at g2
          | str t =>
            rw [gt] at g2
            simp only [optStrTrim] at g2
            cases g2
            rw [gt] at hd
            have hna : ALLOWED_INPUT_TYPES.contains (jsLower (jsTrim t)) = false := by
              simpa using hd
            rw [e2]
            have hmem : jsLower (jsTrim t) ∉ ALLOWED_INPUT_TYPES := by
              simpa using hna
            simp [hmem]

/-- All-dropped rows filter to nothing. -/
theorem filterMap_keepValid_nil {xs : List Json} {rs : List RawSanInput}
    (hf : List.Forall₂ (fun e r => sanitizeInput e = .ok r) xs rs)
    (hd : ∀ e ∈ xs, entryDropped e = true) :
    rs.filterMap keepValid = [] := by
  induction hf with
  | nil => rfl
  | @cons e r xs2 rs2 h1 t ih =>
    rw [List.filterMap_cons, dropped_keepValid h1 (hd e (by simp))]
    exact ih (fun x hx => hd x (by simp [hx]))

/-- **C3** — for every successfully compiled document with no `## Inputs`
JSON (absent heading, empty body, or no declared value) or whose declared
input entries are all dropped (empty/absent name, or type outside the
allowed set), the compiled `inputConfig.inputs` is exactly the single
required `objective : string` entry. -/
theorem C3_input_defaulting (md src : String) (d : AgentDefinition)
    (h : parseAgentMarkdown md src = .ok d)
    (h2 : sectJson (extractSections md) "inputs" = none ∨
      ∀ e ∈ declaredInputEntries md, entryDropped e = true) :
    d.inputConfig.inputs =
      [("objective",
        ⟨"Detailed description of the task to accomplish.", "string", Json.bool true⟩)] := by
  obtain ⟨name, config, h1, hcfg, h3⟩ := parse_ok_spec h
  obtain ⟨ji, hji, hpi⟩ := (buildConfig_ok_spec hcfg).1
  have hjv : ji = sectJson (extractSections md) "inputs" := parseJsonSection_ok_val hji
  have hnone : config.inputs = none := by
    rw [hjv] at hpi
    rcases h2 with hz | hall
    · rw [hz] at hpi
      simp [parseInputs] at hpi
      exact hpi.symm
    · cases gj : sectJson (extractSections md) "inputs" with
      | none =>
        rw [gj] at hpi
        simp [parseInputs] at hpi
        exact hpi.symm
      | some j =>
        rw [gj] at hpi
        cases j with
        | null =>
          simp [parseInputs] at hpi
          exact hpi.symm
        | bool b =>
          cases b
          · simp [parseInputs] at hpi
            exact hpi.symm
          · simp [parseInputs] at hpi
        | num v =>
          by_cases hv : v.isZeroB
          · simp [parseInputs, hv] at hpi
            exact hpi.symm
          · simp [parseInputs, hv] at hpi
        | str sv =>
          by_cases hsv : sv == ""
          · simp [parseInputs, hsv] at hpi
            exact hpi.symm
          · simp [parseInputs, hsv] at hpi
        | obj f =>
          simp only [parseInputs] at hpi
          cases gl : getField (Json.obj f) "length" with
          | none => simp [gl] at hpi
          | some w =>
            cases w with
            | num n =>
              by_cases hz : n.isZeroB
              · simp [gl, hz] at hpi
                exact hpi.symm
              · simp [gl, hz] at hpi
            | null => simp [gl] at hpi
            | bool b => simp [gl] at hpi
            | str t => simp [gl] at hpi
            | arr a => simp [gl] at hpi
            | obj g => simp [gl] at hpi
        | arr xs =>
          have hallx : ∀ e ∈ xs, entryDropped e = true := by
            have he : declaredInputEntries md = xs := by
              unfold declaredInputEntries
              rw [gj]
            rwa [he] at hall
          by_cases hxe : xs.isEmpty
          · simp [parseInputs, hxe] at hpi
            exact hpi.symm
          · simp only [parseInputs, hxe, Bool.false_eq_true, if_false,
              Bind.bind, Except.bind] at hpi
            cases gms : mapSan xs with
            | error m =>
              rw [gms] at hpi
              exact absurd hpi (by simp)
            | ok rs =>
              rw [gms] at hpi
              have hfm : rs.filterMap keepValid = [] :=
                filterMap_keepValid_nil (mapSan_ok_forall gms) hallx
              simp [hfm] at hpi
              exact hpi.symm
  rw [h3, (buildAgentDefinition_proj config src).2.1, hnone]
  rfl

def docC3 : String :=
  "# Agent: W3\n\n## Inputs\n```json\n[\x7b\x22name\x22:\x22  \x22,\x22type\x22:\x22string\x22\x7d,\x7b\x22name\x22:\x22x\x22,\x22type\x22:\x22datetime\x22\x7d]\n```\n"

def defC3 : AgentDefinition :=
  (parseAgentMarkdown docC3 "w3").toOption.getD fallbackAgentDefinition

/-- Witness for C3: a document declaring one blank-named input and one
input of unknown type compiles to the single default `objective` input. -/
theorem C3_input_defaulting_witness :
    defC3.inputConfig.inputs =
      [("objective",
        ⟨"Detailed description of the task to accomplish.", "string", Json.bool true⟩)] :=
  C3_input_defaulting docC3 "w3" defC3 rfl (Or.inr (by decide))

/-! ## Claim C8: canonical input-type mapping -/

/-- A surviving row's type passed the allowed-set filter. -/
theorem keepValid_mem {r : RawSanInput} {i : SanInput} (hk : keepValid r = some i) :
    i.type ∈ ALLOWED_INPUT_TYPES := by
  unfold keepValid at hk
  cases hn : r.rawName with
  | none => simp [hn] at hk
  | some n =>
    cases ht : r.rawType with
    | none => simp [hn, ht] at hk
    | some t =>
      rw [hn, ht] at hk
      simp at hk
      obtain ⟨⟨_, hmem⟩, heq⟩ := hk
      rw [← heq]
      exact hmem

/-- Every allowed type name is already lower-case. -/
theorem allowed_types_lower : ∀ t ∈ ALLOWED_INPUT_TYPES, jsLower t = t := by decide

/-- **C8** — every declared input surviving validation is recorded with
its type lower-cased and canonicalised by `mapInputType`: `integer` maps
to `number`, the array kinds are kept, every surviving type is in the
allowed set (already lower-case), and any type outside the recognised
ones maps to `string`. -/
theorem C8_input_type_mapping (ji : Option Json) (l : List SanInput)
    (h : parseInputs ji = .ok (some l)) :
    (buildInputConfig (some l)).inputs =
      l.map (fun i => (i.name, ⟨i.description, mapInputType i.type, i.required⟩)) ∧
    (∀ i ∈ l, i.type ∈ ALLOWED_INPUT_TYPES ∧ jsLower i.type = i.type) ∧
    mapInputType "string" = "string" ∧
    mapInputType "integer" = "number" ∧
    mapInputType "number" = "number" ∧
    mapInputType "boolean" = "boolean" ∧
    mapInputType "string[]" = "string[]" ∧
    mapInputType "number[]" = "number[]" ∧
    (∀ t, t ∉ (["number", "integer", "boolean", "string[]", "number[]"] : List String) →
      mapInputType t = "string") := by
  have hshape : ∃ xs rs, ji = some (.arr xs) ∧ mapSan xs = .ok rs ∧
      l = rs.filterMap keepValid := by
    cases ji with
    | none => simp [parseInputs] at h
    | some j =>
      cases j with
      | null => simp [parseInputs] at h
      | bool b => cases b <;> simp [parseInputs] at h
      | num v =>
        by_cases hv : v.isZeroB <;> simp [parseInputs, hv] at h
      | str sv =>
        by_cases hsv : sv == "" <;> simp [parseInputs, hsv] at h
      | obj f =>
        simp only [parseInputs] at h
        cases gl : getField (Json.obj f) "length" with
        | none => simp [gl] at h
        | some w =>
          cases w with
          | num n => by_cases hz : n.isZeroB <;> simp [gl, hz] at h
          | null => simp [gl] at h
          | bool b => simp [gl] at h
          | str t => simp [gl] at h
          | arr a => simp [gl] at h
          | obj g => simp [gl] at h
      | arr xs =>
        by_cases hxe : xs.isEmpty
        · simp [parseInputs, hxe] at h
        · simp only [parseInputs, hxe, Bool.false_eq_true, if_false,
            Bind.bind, Except.bind] at h
          cases gms : mapSan xs with
          | error m => rw [gms] at h; exact absurd h (by simp)
          | ok rs =>
            rw [gms] at h
            by_cases hre : (rs.filterMap keepValid).isEmpty
            · simp [hre] at h
            · simp only [hre, Bool.false_eq_true, if_false] at h
              cases h
              exact ⟨xs, rs, rfl, gms, rfl⟩
  obtain ⟨xs, rs, hji, hms, hl⟩ := hshape
  have hne : l ≠ [] := by
    intro hcontr
    rw [hji] at h
    by_cases hxe : xs.isEmpty
    · simp [parseInputs, hxe] at h
    · simp only [parseInputs, hxe, Bool.false_eq_true, if_false,
        Bind.bind, Except.bind, hms] at h
      rcases hcontr with rfl
      by_cases hre : (rs.filterMap keepValid).isEmpty
      · simp [hre] at h
      · rw [← hl] at hre
        simp at hre
  refine ⟨?_, ?_, rfl, rfl, rfl, rfl, rfl, rfl, ?_⟩
  · unfold buildInputConfig
    have : l.length > 0 := List.length_pos_of_ne_nil hne
    simp [this]
  · intro i hi
    rw [hl] at hi
    obtain ⟨r, _, hk⟩ := List.mem_filterMap.mp hi
    have hm := keepValid_mem hk
    exact ⟨hm, allowed_types_lower _ hm⟩
  · intro t ht
    unfold mapInputType
    split <;> simp_all

def docC8 : String :=
  "# Agent: W8\n\n## Inputs\n```json\n[\x7b\x22name\x22:\x22n\x22,\x22type\x22:\x22Integer\x22\x7d,\x7b\x22name\x22:\x22h\x22,\x22type\x22:\x22string[]\x22,\x22required\x22:false\x7d]\n```\n"

def jiC8 : Option Json := sectJson (extractSections docC8) "inputs"

def lC8 : List SanInput := ((parseInputs jiC8).toOption.getD none).getD []

/-- Witness for C8: the surviving inputs of a concrete document (declared
`Integer` and `string[]`) are recorded through `mapInputType`. -/
theorem C8_input_type_mapping_witness :
    (buildInputConfig (some lC8)).inputs =
      lC8.map (fun i => (i.name, ⟨i.description, mapInputType i.type, i.required⟩)) :=
  (C8_input_type_mapping jiC8 lC8 rfl).1

/-! ## Claim C5: compiled output schema semantics (Scenario C) -/

def c5Schema : Json :=
  .obj [("type", .str "object"),
        ("properties", .obj [("a", .obj [("type", .str "string")])]),
        ("required", .arr [.str "a"])]

def c5OutputJson : Json :=
  .obj [("type", .str "json"), ("schema", c5Schema)]

/-- **C5** — compiling the output section
`{"type":"json","schema":{"type":"object","properties":{"a":{"type":"string"}},"required":["a"]}}`
yields a validator that accepts `{"a":"x"}`, accepts `{"a":"x","b":1}`
(unknown extra properties pass through), and rejects `{}` (required `a`
missing). -/
theorem C5_output_schema_scenario :
    parseOutput (some c5OutputJson) =
      .ok (some ⟨"result", "json", "", some c5Schema⟩) ∧
    zodAccepts (buildOutputConfig (some ⟨"result", "json", "", some c5Schema⟩)).schema
      (.obj [("a", .str "x")]) = true ∧
    zodAccepts (buildOutputConfig (some ⟨"result", "json", "", some c5Schema⟩)).schema
      (.obj [("a", .str "x"), ("b", .num (.finite ⟨1, 0⟩))]) = true ∧
    zodAccepts (buildOutputConfig (some ⟨"result", "json", "", some c5Schema⟩)).schema
      (.obj []) = false :=
  ⟨rfl, rfl, rfl, rfl⟩

/-! ## Claim C6: totality of the schema compiler -/

/-- Is the value a JS object for the purposes of `buildZodSchema`'s guard
(truthy and `typeof === 'object'`)? -/
def isJsObjectLike (v : Option Json) : Bool :=
  match v with
  | some (.arr _) => true
  | some (.obj _) => true
  | _ => false

/-- Does the schema node carry a recognised `type` string? -/
def typeFieldRecognized (schema : Json) : Bool :=
  match getField schema "type" with
  | some (.str t) =>
    ["string", "number", "integer", "boolean", "array", "object"].contains t
  | _ => false

/-- **C6** — the schema compiler is total (it is a plain function in the
embedding, with no error channel): a JS-falsy or non-object input to
`buildZodSchema` yields the accept-anything descriptor; a node whose
`type` is missing, non-string, or unrecognised compiles to the
accept-anything descriptor; and the assembled definition always carries
`buildOutputConfig`'s schema (so `outputConfig.schema` is always
present). -/
theorem C6_schema_compiler_total (j : Option Json) (x : Json)
    (config : ParsedAgentConfig) (source : String) :
    (isJsObjectLike j = false → buildZodSchema j = .zAny) ∧
    (typeFieldRecognized x = false → jsonSchemaToZod x = .zAny) ∧
    (buildAgentDefinition config source).outputConfig.schema =
      (buildOutputConfig config.output).schema := by
  refine ⟨?_, ?_, rfl⟩
  · intro hj
    cases j with
    | none => rfl
    | some v => cases v <;> simp [isJsObjectLike] at hj ⊢ <;> rfl
  · intro hx
    unfold jsonSchemaToZod jsonSchemaToZodF
    unfold typeFieldRecognized at hx
    cases g : getField x "type" with
    | none => simp [g]
    | some v =>
      cases v with
      | str t =>
        rw [g] at hx
        have hne : t ∉ ["string", "number", "integer", "boolean", "array", "object"] := by
          simpa using hx
        simp only [g]
        split <;> simp_all
      | null => simp [g]
      | bool b => simp [g]
      | num q => simp [g]
      | arr a => simp [g]
      | obj f => simp [g]

/-- Witness for C6: a numeric schema value and a node with an unknown
`type` both compile to the accept-anything descriptor. -/
theorem C6_schema_compiler_total_witness :
    buildZodSchema (some (.num (.finite ⟨3, 0⟩))) = .zAny ∧
    jsonSchemaToZod (.obj [("type", .str "banana")]) = .zAny :=
  ⟨(C6_schema_compiler_total (some (.num (.finite ⟨3, 0⟩))) (.obj [("type", .str "banana")])
      emptyParsedConfig "s").1 rfl,
   (C6_schema_compiler_total (some (.num (.finite ⟨3, 0⟩))) (.obj [("type", .str "banana")])
      emptyParsedConfig "s").2.1 rfl⟩

/-! ## Claim C7: directory-loader isolation -/

/-- Unfolding of the loader loop: definitions are exactly the successful
parses of filtered entries, warnings exactly the failures (each naming the
file). -/
theorem loadAgentsList_spec (dir : String) (entries : List DirEntry) :
    loadAgentsList dir entries =
      (entries.filterMap (fun e =>
        if isAgentFile e then
          (parseAgentMarkdown e.content (joinPath dir e.name)).toOption
        else none),
       entries.filterMap (fun e =>
        if isAgentFile e then
          match parseAgentMarkdown e.content (joinPath dir e.name) with
          | .ok _ => none
          | .error m => some (loadWarning (joinPath dir e.name) m)
        else none)) := by
  induction entries with
  | nil => rfl
  | cons e rest ih =>
    simp only [loadAgentsList, ih, List.filterMap_cons]
    cases hf : isAgentFile e
    · simp [hf]
    · simp only [hf, if_true]
      cases hp : parseAgentMarkdown e.content (joinPath dir e.name) with
      | ok d => simp [hp, Except.toOption]
      | error m => simp [hp, Except.toOption]

/-- **C7** — the batch loader is total (it returns a pair, never throws):
a non-existent directory yields an empty result; otherwise the returned
definitions are exactly the successful parses of the regular files passing
the (lower-cased) `.agent.md` name filter, and each failing candidate
contributes exactly one warning naming the file's full path, without
aborting the batch. -/
theorem C7_directory_isolation (directory : String) (entries : List DirEntry) :
    loadAgentsFromDirectory none directory = ([], []) ∧
    (loadAgentsFromDirectory (some entries) directory).1 =
      entries.filterMap (fun e =>
        if isAgentFile e then
          (parseAgentMarkdown e.content (joinPath directory e.name)).toOption
        else none) ∧
    (loadAgentsFromDirectory (some entries) directory).2 =
      entries.filterMap (fun e =>
        if isAgentFile e then
          match parseAgentMarkdown e.content (joinPath directory e.name) with
          | .ok _ => none
          | .error m => some (loadWarning (joinPath directory e.name) m)
        else none) := by
  refine ⟨rfl, ?_, ?_⟩ <;>
    simp [loadAgentsFromDirectory, loadAgentsList_spec]

/-! ## Claim C10: case-insensitive file filter -/

/-- **C10** — a directory entry is treated as an agent specification
(producing a definition or a warning) iff it is a regular file whose name
lower-cases to a string ending in `.agent.md`; in particular
`X.AGENT.MD` passes the filter and `notes.txt` does not. -/
theorem C10_case_insensitive_filter (e : DirEntry) (directory : String) :
    (loadAgentsFromDirectory (some [e]) directory = ([], []) ↔
      ¬(e.isFile = true ∧ jsEndsWith (jsLower e.name) ".agent.md" = true)) ∧
    jsEndsWith (jsLower "X.AGENT.MD") ".agent.md" = true ∧
    jsEndsWith (jsLower "notes.txt") ".agent.md" = false := by
  refine ⟨⟨?_, ?_⟩, by decide, by decide⟩
  · intro h hc
    obtain ⟨h1, h2⟩ := hc
    have hf : isAgentFile e = true := by simp [isAgentFile, h1, h2]
    simp only [loadAgentsFromDirectory, loadAgentsList, hf] at h
    cases hp : parseAgentMarkdown e.content (joinPath directory e.name) with
    | ok d => rw [hp] at h; simp at h
    | error m => rw [hp] at h; simp at h
  · intro h
    have hf : isAgentFile e = false := by
      unfold isAgentFile
      cases h1 : e.isFile
      · rfl
      · cases h2 : jsEndsWith (jsLower e.name) ".agent.md"
        · rfl
        · exact absurd ⟨h1, h2⟩ h
    simp [loadAgentsFromDirectory, loadAgentsList, hf]
